import Mathlib

/-
Verification of the spreadsheet evaluator (src/spreadsheet.py, src/utills.py).

Python strings are embedded as `List Char`; Python exceptions as `Except`
results; the two mutable tables `self.values` / `self.state` as functions
`Nat → Nat → _` updated pointwise, threaded explicitly through evaluation.
The unbounded mutual recursion of `evaluate_cell` / `_evaluate_formula` /
`_evaluate_token` is embedded with a fuel parameter; exhausting the fuel
yields the distinguished result `Err.outOfFuel`, the analogue of stack
exhaustion, which the source otherwise prevents only through its
cycle detection.
-/

set_option maxHeartbeats 1000000

/-- The regex character class `[A-Z]`. -/
def isUpperAZ (c : Char) : Bool := decide (65 ≤ c.toNat ∧ c.toNat ≤ 90)

/-- The regex character class `[a-z]`. -/
def isLowerAZ (c : Char) : Bool := decide (97 ≤ c.toNat ∧ c.toNat ≤ 122)

/-- The regex character class `[A-Za-z]`. -/
def isLetterAZ (c : Char) : Bool := isUpperAZ c || isLowerAZ c

/-- The regex character class `[0-9]`. -/
def isDigit09 (c : Char) : Bool := decide (48 ≤ c.toNat ∧ c.toNat ≤ 57)

namespace Utills

/-- Python's `str.islower` on a single character.  Modelled from the Unicode
character database on the code points this development evaluates it at: the
ASCII range, where it is `'a' ≤ c ≤ 'z'`, plus U+00E9 (`é`), a lowercase
letter.  (The full Unicode table is out of scope; every statement below
confines itself to these code points.) -/
def pyIsLower (c : Char) : Bool := isLowerAZ c || c.toNat == 233

/-- Python's `str.upper` on a single character, modelled on the same code
points as `pyIsLower`: ASCII lowercase maps down by 32, U+00E9 (`é`) maps to
U+00C9 (`É`), everything else in the modelled range is fixed. -/
def pyUpper (c : Char) : Char :=
  if isLowerAZ c then Char.ofNat (c.toNat - 32)
  else if c.toNat == 233 then Char.ofNat 201
  else c

/-- Python's `str.isalpha` on a single character, modelled on the same code
points as `pyIsLower`: ASCII letters, plus the Unicode letters U+00E9 (`é`)
and U+00C9 (`É`).  Python's `isalpha` accepts every Unicode letter, not only
ASCII ones. -/
def pyIsAlpha (c : Char) : Bool := isLetterAZ c || c.toNat == 233 || c.toNat == 201

/-- Loop body of `Utills.convert_26_base_to_decimal`: fold over the
characters; lowercase characters are uppercased, a non-letter raises
`ValueError` (the error carries the offending character, which the Python
message names). -/
def convert26Go (result : Nat) : List Char → Except Char Nat
  | [] => .ok result
  | c :: cs =>
    let c2 := if pyIsLower c then pyUpper c else c
    if pyIsAlpha c2 then convert26Go (result * 26 + (c2.toNat - 65 + 1)) cs
    else .error c2

/-- `Utills.convert_26_base_to_decimal`: interpret a label as a bijective
base-26 numeral (A=1 … Z=26). -/
def convert_26_base_to_decimal (s : List Char) : Except Char Nat :=
  convert26Go 0 s

/-- The `while n > 0` loop of `Utills.convert_decimal_to_26_base`, run on
an explicit iteration budget so that the definition is structural (and
therefore computable inside the kernel): Python appends
`chr((n-1) % 26 + 65)` and continues with `(n-1) // 26`, reversing the
list at the end; consing onto the accumulator builds the same reversed
result. -/
def toBase26GoF : Nat → Nat → List Char → List Char
  | 0, _, acc => acc
  | fuel + 1, n, acc =>
    if n = 0 then acc
    else toBase26GoF fuel ((n - 1) / 26) (Char.ofNat ((n - 1) % 26 + 65) :: acc)

/-- The `while n > 0` loop of `Utills.convert_decimal_to_26_base`: since
`(n-1)/26 < n`, the loop runs at most `n` times, so a budget of `n`
iterations computes it exactly (`toBase26GoF_congr` below). -/
def toBase26Go (n : Nat) (acc : List Char) : List Char := toBase26GoF n n acc

/-- `Utills.convert_decimal_to_26_base`: raises `ValueError` for negative
input, returns the bijective base-26 label otherwise (`""` for 0). -/
def convert_decimal_to_26_base (n : Int) : Except String (List Char) :=
  if n < 0 then .error "Only non-negative numbers are allowed."
  else .ok (toBase26Go n.toNat [])

end Utills

namespace Spreadsheet

/-- Module-level constant `NOT_EVALUATED = 0`. -/
def NOT_EVALUATED : Nat := 0

/-- Module-level constant `EVALUATED = 1`. -/
def EVALUATED : Nat := 1

/-- Module-level constant `EVALUATING = 2`. -/
def EVALUATING : Nat := 2

/-- The exceptions raised by the evaluator.  `circular` embeds
`CircularReferenceError` and carries the cell label its message names; the
other constructors embed the `ValueError`s raised at the corresponding
sites, each carrying the data its Python message names.  `outOfFuel` is the
embedding's marker for exhausted fuel (unbounded recursion). -/
inductive Err where
  | circular (label : String)
  | invalidCellValue (row col : Nat) (content : String)
  | invalidFormula (formula : String)
  | invalidToken (token : String)
  | invalidOperator (op : String)
  | invalidReference (ref : String)
  | outOfRange (ref : String)
  | invalidLabelChar (c : Char)
  | outOfFuel
  deriving DecidableEq, Repr

/-- The state of a `Spreadsheet` instance: the construction-time fields
`rows`, `cols`, `data`, and the two mutable tables `values` and `state`,
embedded as total functions updated pointwise. -/
structure Sheet where
  rows : Nat
  cols : Nat
  data : List (List (List Char))
  values : Nat → Nat → Int
  state : Nat → Nat → Nat

/-- Read `self.data[r][c]` (out-of-range reads, which the source never
performs, give `[]`). -/
def cellData (σ : Sheet) (r c : Nat) : List Char := (σ.data.getD r []).getD c []

/-- Assignment `self.values[r][c] = v`. -/
def setValue (σ : Sheet) (r c : Nat) (v : Int) : Sheet :=
  { σ with values := fun r' c' => if r' = r ∧ c' = c then v else σ.values r' c' }

/-- Assignment `self.state[r][c] = s`. -/
def setState (σ : Sheet) (r c : Nat) (s : Nat) : Sheet :=
  { σ with state := fun r' c' => if r' = r ∧ c' = c then s else σ.state r' c' }

/-- The characters Python's `str.strip` removes, restricted to the ASCII
range this development evaluates it at. -/
def isPySpace (c : Char) : Bool :=
  c == ' ' || c == '\t' || c == '\n' || c.toNat == 13 || c.toNat == 11 || c.toNat == 12

/-- Python's `str.strip()`: drop leading and trailing whitespace. -/
def pyStrip (s : List Char) : List Char :=
  ((s.dropWhile isPySpace).reverse.dropWhile isPySpace).reverse

/-- Digit tail of Python's `int()` grammar: further digits, with single
underscores permitted between digits. -/
def pyDigitsGo (acc : Nat) : List Char → Option Nat
  | [] => some acc
  | c :: cs =>
    if isDigit09 c then pyDigitsGo (acc * 10 + (c.toNat - 48)) cs
    else if c == '_' then
      match cs with
      | c2 :: cs2 =>
        if isDigit09 c2 then pyDigitsGo (acc * 10 + (c2.toNat - 48)) cs2 else none
      | [] => none
    else none

/-- Digit part of Python's `int()` grammar: one or more ASCII digits, with
single underscores permitted between digits. -/
def pyDigits : List Char → Option Nat
  | [] => none
  | c :: cs => if isDigit09 c then pyDigitsGo (c.toNat - 48) cs else none

/-- Python's `int(s)` on a string: strip whitespace, optional sign, ASCII
digits.  (Python additionally accepts non-ASCII Unicode digits, which are
outside the modelled range.)  `none` embeds the raised `ValueError`. -/
def pyInt (s : List Char) : Option Int :=
  match pyStrip s with
  | '+' :: rest => (pyDigits rest).map (fun n => (n : Int))
  | '-' :: rest => (pyDigits rest).map (fun n => -(n : Int))
  | rest => (pyDigits rest).map (fun n => (n : Int))

/-- The anchored pattern `^[A-Za-z]+[0-9]+$` of `_evaluate_token`: one or
more ASCII letters followed by one or more ASCII digits. -/
def refMatch (t : List Char) : Bool :=
  let letters := t.takeWhile isLetterAZ
  let rest := t.dropWhile isLetterAZ
  !letters.isEmpty && !rest.isEmpty && rest.all isDigit09

/-- Numeric value of a string of ASCII digits (`int(row_part)`). -/
def digitsToNat (ds : List Char) : Nat :=
  ds.foldl (fun a c => a * 10 + (c.toNat - 48)) 0

/-- `Spreadsheet.parse_reference`: `re.match(r"([A-Za-z]+)([0-9]+)", ref)`
matches a prefix of one or more letters followed by one or more digits;
the column label is decoded through the label codec and both indices are
made zero-based and bounds-checked. -/
def parse_reference (rows cols : Nat) (ref : List Char) : Except Err (Nat × Nat) :=
  let colPart := ref.takeWhile isLetterAZ
  let rowPart := (ref.dropWhile isLetterAZ).takeWhile isDigit09
  if colPart.isEmpty || rowPart.isEmpty then .error (.invalidReference (String.mk ref))
  else
    match Utills.convert_26_base_to_decimal colPart with
    | .error c => .error (.invalidLabelChar c)
    | .ok n =>
      let colIndex : Int := (n : Int) - 1
      let rowIndex : Int := (digitsToNat rowPart : Int) - 1
      if 0 ≤ rowIndex ∧ rowIndex < (rows : Int) ∧ 0 ≤ colIndex ∧ colIndex < (cols : Int) then
        .ok (rowIndex.toNat, colIndex.toNat)
      else .error (.outOfRange (String.mk ref))

/-- `Spreadsheet._column_name`: its loop is the same algorithm as
`Utills.convert_decimal_to_26_base` applied to the one-based column
number. -/
def column_name (c : Nat) : List Char := Utills.toBase26Go (c + 1) []

/-- `Spreadsheet._cell_name`: column label followed by the one-based row
number. -/
def cell_name (r c : Nat) : List Char := column_name c ++ (toString (r + 1)).data

/-- Loop of `re.split(r"(\+|-)", s)`: cut at every `+` or `-`, keeping each
operator as its own fragment (the capture group retains separators);
adjacent or leading/trailing operators produce empty fragments. -/
def pySplitOpsGo (cur : List Char) : List Char → List (List Char)
  | [] => [cur.reverse]
  | c :: cs =>
    if c == '+' || c == '-' then cur.reverse :: [c] :: pySplitOpsGo [] cs
    else pySplitOpsGo (c :: cur) cs

/-- `re.split(r"(\+|-)", s)`. -/
def pySplitOps (s : List Char) : List (List Char) := pySplitOpsGo [] s

/-- The token list of `_evaluate_formula`:
`[t.strip() for t in re.split(r"(\+|-)", formula) if t.strip()]`. -/
def splitTokens (formula : List Char) : List (List Char) :=
  ((pySplitOps formula).map pyStrip).filter (fun t => !t.isEmpty)

mutual

/-- `Spreadsheet.evaluate_cell`: memo hit returns the stored value; hitting
an `EVALUATING` cell raises `CircularReferenceError` naming the cell label;
otherwise the cell is marked `EVALUATING`, its stripped content is
evaluated (empty ↦ 0, leading `=` ↦ formula, otherwise `int` literal), and
on success the value is stored and the cell marked `EVALUATED`. -/
def evaluate_cell : Nat → Sheet → Nat → Nat → (Except Err Int) × Sheet
  | 0, σ, _, _ => (.error .outOfFuel, σ)
  | fuel + 1, σ, r, c =>
    if σ.state r c = EVALUATED then (.ok (σ.values r c), σ)
    else if σ.state r c = EVALUATING then
      (.error (.circular (String.mk (cell_name r c))), σ)
    else
      let σ1 := setState σ r c EVALUATING
      let content := pyStrip (cellData σ r c)
      if content.isEmpty then (.ok 0, setState (setValue σ1 r c 0) r c EVALUATED)
      else if content.headD ' ' == '=' then
        match evaluate_formula fuel σ1 (content.drop 1) with
        | (.ok v, σ2) => (.ok v, setState (setValue σ2 r c v) r c EVALUATED)
        | (.error e, σ2) => (.error e, σ2)
      else
        match pyInt content with
        | some v => (.ok v, setState (setValue σ1 r c v) r c EVALUATED)
        | none => (.error (.invalidCellValue (r + 1) (c + 1) (String.mk content)), σ1)

/-- `Spreadsheet._evaluate_formula`: split into tokens; a single token is
evaluated directly; three tokens are `left op right` with `left` and
`right` evaluated before the operator is inspected; any other token count
raises `ValueError` naming the formula. -/
def evaluate_formula : Nat → Sheet → List Char → (Except Err Int) × Sheet
  | 0, σ, _ => (.error .outOfFuel, σ)
  | fuel + 1, σ, formula =>
    match splitTokens formula with
    | [t] => evaluate_token fuel σ t
    | [l, op, r] =>
      match evaluate_token fuel σ l with
      | (.ok lv, σ1) =>
        match evaluate_token fuel σ1 r with
        | (.ok rv, σ2) =>
          if op = ['+'] then (.ok (lv + rv), σ2)
          else if op = ['-'] then (.ok (lv - rv), σ2)
          else (.error (.invalidOperator (String.mk op)), σ2)
        | (.error e, σ2) => (.error e, σ2)
      | (.error e, σ1) => (.error e, σ1)
    | _ => (.error (.invalidFormula (String.mk formula)), σ)

/-- `Spreadsheet._evaluate_token`: a token matching `^[A-Za-z]+[0-9]+$` is
resolved as a reference and evaluated recursively; otherwise it must parse
as an integer. -/
def evaluate_token : Nat → Sheet → List Char → (Except Err Int) × Sheet
  | 0, σ, _ => (.error .outOfFuel, σ)
  | fuel + 1, σ, t =>
    if refMatch t then
      match parse_reference σ.rows σ.cols t with
      | .ok (rr, cc) => evaluate_cell fuel σ rr cc
      | .error e => (.error e, σ)
    else
      match pyInt t with
      | some v => (.ok v, σ)
      | none => (.error (.invalidToken (String.mk t)), σ)

end

/-- Row-major list of all coordinates, the iteration order of
`Spreadsheet.evaluate`. -/
def coordsList (rows cols : Nat) : List (Nat × Nat) :=
  (List.range rows).flatMap (fun r => (List.range cols).map (fun c => (r, c)))

/-- The double loop of `Spreadsheet.evaluate`: visit each coordinate in
order, evaluating it unless already `EVALUATED`; the first exception
aborts the sweep. -/
def evalCells (fuel : Nat) : Sheet → List (Nat × Nat) → (Except Err Unit) × Sheet
  | σ, [] => (.ok (), σ)
  | σ, (r, c) :: rest =>
    if σ.state r c ≠ EVALUATED then
      match evaluate_cell fuel σ r c with
      | (.ok _, σ1) => evalCells fuel σ1 rest
      | (.error e, σ1) => (.error e, σ1)
    else evalCells fuel σ rest

/-- The `self.values` table materialised as the list of lists
`Spreadsheet.evaluate` returns. -/
def valuesGrid (σ : Sheet) : List (List Int) :=
  (List.range σ.rows).map (fun r => (List.range σ.cols).map (fun c => σ.values r c))

/-- `Spreadsheet.evaluate`: sweep all cells in row-major order and return
the value table. -/
def evaluate (fuel : Nat) (σ : Sheet) : (Except Err (List (List Int))) × Sheet :=
  match evalCells fuel σ (coordsList σ.rows σ.cols) with
  | (.ok _, σ1) => (.ok (valuesGrid σ1), σ1)
  | (.error e, σ1) => (.error e, σ1)

/-- `Spreadsheet.__init__`: record dimensions, reject ragged grids
(`ValueError`), and allocate the all-zero `values` and all-`NOT_EVALUATED`
`state` tables. -/
def init (data : List (List (List Char))) : Except String Sheet :=
  let rows := data.length
  let cols := if rows > 0 then (data.headD []).length else 0
  if data.any (fun row => row.length ≠ cols) then
    .error "All rows must have the same number of columns"
  else
    .ok { rows := rows, cols := cols, data := data,
          values := fun _ _ => 0, state := fun _ _ => NOT_EVALUATED }

/-- Convenience conversion from string literals to the embedded grid
representation. -/
def mkGrid (g : List (List String)) : List (List (List Char)) :=
  g.map (fun row => row.map String.data)

/-- Construct a spreadsheet from a grid of string literals and run
`evaluate`, keeping only the returned value (the outer `Except` is
construction failure). -/
def runGrid (g : List (List String)) (fuel : Nat) :
    Except String (Except Err (List (List Int))) :=
  (init (mkGrid g)).map (fun σ => (evaluate fuel σ).1)

/-- Truth value of an `Except` being a success. -/
def exOk {ε α : Type} : Except ε α → Bool
  | .ok _ => true
  | .error _ => false

/-- Evaluation never changes the construction-time fields `rows`, `cols`
and `data`. -/
def dimsEq (σ σ' : Sheet) : Prop :=
  σ'.rows = σ.rows ∧ σ'.cols = σ.cols ∧ σ'.data = σ.data

/-- State-change discipline of one evaluation step: every cell either
keeps its marker and value, or was neither `EVALUATED` nor `EVALUATING`
before the step. -/
def Effects (σ σ' : Sheet) : Prop :=
  dimsEq σ σ' ∧
  ∀ y z, (σ'.state y z = σ.state y z ∧ σ'.values y z = σ.values y z) ∨
    (σ.state y z ≠ EVALUATED ∧ σ.state y z ≠ EVALUATING)

/-- State-change discipline of a successful evaluation step: every cell
either keeps its marker and value, or moves to `EVALUATED` from a marker
that was neither `EVALUATED` nor `EVALUATING`. -/
def OkEffects (σ σ' : Sheet) : Prop :=
  ∀ y z, (σ'.state y z = σ.state y z ∧ σ'.values y z = σ.values y z) ∨
    (σ.state y z ≠ EVALUATED ∧ σ.state y z ≠ EVALUATING ∧ σ'.state y z = EVALUATED)

/-- Tokens whose evaluation cannot itself raise: a reference that parses
and is in range, or (for non-references) an integer literal. -/
def cleanTokenB (rows cols : Nat) (t : List Char) : Bool :=
  if refMatch t then exOk (parse_reference rows cols t) else (pyInt t).isSome

/-- Formula bodies whose shape cannot raise: one clean token, or
`left op right` with `op` one of `+`/`-` and clean operands. -/
def cleanFormulaB (rows cols : Nat) (fml : List Char) : Bool :=
  match splitTokens fml with
  | [t] => cleanTokenB rows cols t
  | [l, op, r] =>
    (op == ['+'] || op == ['-']) && cleanTokenB rows cols l && cleanTokenB rows cols r
  | _ => false

/-- Cells whose own text cannot raise: blank, an integer literal, or a
formula with clean shape. -/
def cleanCellB (σ : Sheet) (r c : Nat) : Bool :=
  let content := pyStrip (cellData σ r c)
  content.isEmpty ||
    (if content.headD ' ' == '=' then cleanFormulaB σ.rows σ.cols (content.drop 1)
     else (pyInt content).isSome)

/-- Grids in which no cell can raise a parse, token, range or literal
error, so the only possible failures are circular references (or, in the
embedding, exhausted fuel). -/
def CleanSheet (σ : Sheet) : Prop :=
  ∀ r, r < σ.rows → ∀ c, c < σ.cols → cleanCellB σ r c = true

/-- Reads outside the sheet's dimensions find blank cells (true of every
sheet built by `init`, whose dimensions cover its rectangular data). -/
def OobBlank (σ : Sheet) : Prop :=
  ∀ r c, (r < σ.rows ∧ c < σ.cols) ∨ cellData σ r c = []

/-- The grid's reference edges: cell `p` holds a formula one of whose
tokens is a reference resolving to cell `q`. -/
def refEdgeB (σ : Sheet) (p q : Nat × Nat) : Bool :=
  let content := pyStrip (cellData σ p.1 p.2)
  !content.isEmpty && content.headD ' ' == '=' &&
    (splitTokens (content.drop 1)).any (fun t =>
      refMatch t &&
        match parse_reference σ.rows σ.cols t with
        | .ok q' => q' == q
        | .error _ => false)

/-- A non-empty coordinate list each member of which references the next,
cyclically: the claim's "formula references form a cycle". -/
def IsRefCycleB (σ : Sheet) (cs : List (Nat × Nat)) : Bool :=
  !cs.isEmpty && (List.range cs.length).all (fun i =>
    refEdgeB σ (cs.getD i (0, 0)) (cs.getD ((i + 1) % cs.length) (0, 0)))

/-- Every member of `cs` references some member of `cs` (the consequence
of a reference cycle that drives the impossibility argument). -/
def SuccClosed (σ : Sheet) (cs : List (Nat × Nat)) : Prop :=
  ∀ p ∈ cs, ∃ q ∈ cs, refEdgeB σ p q = true

/-- No member of `cs` is marked `EVALUATED`. -/
def NoDoneOn (σ : Sheet) (cs : List (Nat × Nat)) : Prop :=
  ∀ p ∈ cs, σ.state p.1 p.2 ≠ EVALUATED

/-- No cell at all is marked `EVALUATING`. -/
def NoBusy (σ : Sheet) : Prop := ∀ y z, σ.state y z ≠ EVALUATING

/-- The claim's description of formula evaluation (C4), written
independently of `evaluate_formula`: dispatch on the number of remaining
tokens — one token is evaluated directly, three are `left op right` with
both operands evaluated before the operator is inspected, and every other
count is an invalid formula naming the formula text. -/
def formulaSpec (fuel : Nat) (σ : Sheet) (fml : List Char) : (Except Err Int) × Sheet :=
  let ts := splitTokens fml
  if ts.length = 1 then evaluate_token fuel σ (ts.headD [])
  else if ts.length = 3 then
    match evaluate_token fuel σ (ts.getD 0 []) with
    | (.ok lv, σ1) =>
      match evaluate_token fuel σ1 (ts.getD 2 []) with
      | (.ok rv, σ2) =>
        if ts.getD 1 [] = ['+'] then (.ok (lv + rv), σ2)
        else if ts.getD 1 [] = ['-'] then (.ok (lv - rv), σ2)
        else (.error (.invalidOperator (String.mk (ts.getD 1 []))), σ2)
      | (.error e, σ2) => (.error e, σ2)
    | (.error e, σ1) => (.error e, σ1)
  else (.error (.invalidFormula (String.mk fml)), σ)

/-- Freshly constructed sheet for the grid `[["1", "=A1+1"]]`, used to
exercise the general theorems on a concrete instance. -/
def sheetA : Sheet :=
  { rows := 1, cols := 2, data := mkGrid [["1", "=A1+1"]],
    values := fun _ _ => 0, state := fun _ _ => NOT_EVALUATED }

/-- The sheet left behind by evaluating `sheetA`. -/
def sheetA1 : Sheet := (evaluate 30 sheetA).2

/-- Freshly constructed sheet for the grid `[["x"]]` (an invalid literal). -/
def sheetB : Sheet :=
  { rows := 1, cols := 1, data := mkGrid [["x"]],
    values := fun _ _ => 0, state := fun _ _ => NOT_EVALUATED }

/-- The sheet left behind by the failed evaluation of `sheetB`. -/
def sheetB1 : Sheet := (evaluate 5 sheetB).2

/-- Freshly constructed sheet for the two-cell cycle `[["=B1", "=A1"]]`. -/
def sheetC : Sheet :=
  { rows := 1, cols := 2, data := mkGrid [["=B1", "=A1"]],
    values := fun _ _ => 0, state := fun _ _ => NOT_EVALUATED }

/-- Freshly constructed sheet for the grid `[["x", "=B1"]]`: an invalid
literal in A1 and a self-referencing cycle in B1. -/
def sheetE : Sheet :=
  { rows := 1, cols := 2, data := mkGrid [["x", "=B1"]],
    values := fun _ _ => 0, state := fun _ _ => NOT_EVALUATED }

end Spreadsheet

open Utills Spreadsheet

/-- Recovering the code point of a character built from a valid code
point. -/
theorem char_toNat_ofNat {k : Nat} (h : k < 55296) : (Char.ofNat k).toNat = k := by
  unfold Char.ofNat
  rw [dif_pos (Or.inl h)]
  rfl

/-- Any iteration budget of at least `n` computes the encode loop. -/
theorem toBase26GoF_congr :
    ∀ (f n : Nat) (acc : List Char), n ≤ f →
      Utills.toBase26GoF f n acc = Utills.toBase26Go n acc := by
  intro f
  induction f using Nat.strong_induction_on with
  | _ f ih =>
    intro n acc hn
    rcases n with _ | m
    · cases f <;> rfl
    · rcases f with _ | f
      · omega
      · have hd : m / 26 ≤ m := Nat.div_le_self m 26
        have h1 : Utills.toBase26GoF (f + 1) (m + 1) acc =
            Utills.toBase26GoF f (m / 26) (Char.ofNat (m % 26 + 65) :: acc) := rfl
        have h2 : Utills.toBase26GoF (m + 1) (m + 1) acc =
            Utills.toBase26GoF m (m / 26) (Char.ofNat (m % 26 + 65) :: acc) := rfl
        show Utills.toBase26GoF (f + 1) (m + 1) acc = Utills.toBase26GoF (m + 1) (m + 1) acc
        rw [h1, h2, ih f (by omega) (m / 26) _ (by omega),
          ih m (by omega) (m / 26) _ (by omega)]

/-- One unfolding of the encode loop. -/
theorem toBase26Go_eq (n : Nat) (acc : List Char) :
    Utills.toBase26Go n acc =
      if n = 0 then acc
      else Utills.toBase26Go ((n - 1) / 26) (Char.ofNat ((n - 1) % 26 + 65) :: acc) := by
  rcases n with _ | m
  · rfl
  · rw [if_neg (Nat.succ_ne_zero m)]
    show Utills.toBase26GoF (m + 1) (m + 1) acc = _
    have h2 : Utills.toBase26GoF (m + 1) (m + 1) acc =
        Utills.toBase26GoF m (m / 26) (Char.ofNat (m % 26 + 65) :: acc) := rfl
    rw [h2, toBase26GoF_congr m (m / 26) _ (Nat.div_le_self m 26)]
    simp

/-- The decode loop of the label codec errors at the first character that
is not a letter; within ASCII, case conversion cannot rescue a
non-letter. -/
theorem convert26Go_error_of_bad (s : List Char) :
    ∀ res : Nat, (∀ c ∈ s, c.toNat < 128) → (∃ c ∈ s, isLetterAZ c = false) →
    ∃ c, Utills.convert26Go res s = .error c ∧ Utills.pyIsAlpha c = false := by
  induction s with
  | nil =>
    rintro res _ ⟨c, hc, _⟩
    exact absurd hc (List.not_mem_nil c)
  | cons a as ih =>
    intro res hascii hbad
    have ha128 : a.toNat < 128 := hascii a (List.mem_cons_self a as)
    have hne233 : (a.toNat == 233) = false := by
      simp only [beq_eq_false_iff_ne]; omega
    by_cases ha : isLetterAZ a = true
    · have hbad' : ∃ c ∈ as, isLetterAZ c = false := by
        rcases hbad with ⟨c, hc, hcbad⟩
        rcases List.mem_cons.mp hc with rfl | hcs
        · rw [ha] at hcbad; exact absurd hcbad (by simp)
        · exact ⟨c, hcs, hcbad⟩
      have hascii' : ∀ c ∈ as, c.toNat < 128 :=
        fun c hc => hascii c (List.mem_cons_of_mem a hc)
      by_cases hl : isLowerAZ a = true
      · have hlow : Utills.pyIsLower a = true := by
          simp [Utills.pyIsLower, hl]
        have hrange : 97 ≤ a.toNat ∧ a.toNat ≤ 122 := by
          simpa [isLowerAZ] using hl
        have hup : (Utills.pyUpper a).toNat = a.toNat - 32 := by
          simp only [Utills.pyUpper, if_pos hl]
          exact char_toNat_ofNat (by omega)
        have halpha : Utills.pyIsAlpha (Utills.pyUpper a) = true := by
          simp only [Utills.pyIsAlpha, isLetterAZ, isUpperAZ, hup, Bool.or_eq_true,
            decide_eq_true_eq]
          left; left; omega
        simp only [Utills.convert26Go, hlow, halpha, if_true]
        exact ih _ hascii' hbad'
      · have hlow : Utills.pyIsLower a = false := by
          simp [Utills.pyIsLower, hl, hne233]
        have halpha : Utills.pyIsAlpha a = true := by
          simp [Utills.pyIsAlpha, ha]
        simp only [Utills.convert26Go, hlow, Bool.false_eq_true, if_false, halpha, if_true]
        exact ih _ hascii' hbad'
    · have ha' : isLetterAZ a = false := by
        cases h : isLetterAZ a
        · rfl
        · exact absurd h ha
      have hlow : Utills.pyIsLower a = false := by
        have : isLowerAZ a = false := by
          simp only [isLetterAZ, Bool.or_eq_false_iff] at ha'
          exact ha'.2
        simp [Utills.pyIsLower, this, hne233]
      have halpha : Utills.pyIsAlpha a = false := by
        have hne201 : (a.toNat == 201) = false := by
          simp only [beq_eq_false_iff_ne]; omega
        simp [Utills.pyIsAlpha, ha', hne233, hne201]
      refine ⟨a, ?_, halpha⟩
      simp only [Utills.convert26Go, hlow, Bool.false_eq_true, if_false, halpha]

/-- C7 (amended): for every string of ASCII characters containing at least
one character that is not an ASCII letter, `labelToIndex` fails with
`InvalidLabel` (a `ValueError` naming a non-letter character).  The
original claim's quantification over all strings fails because Python's
`isalpha` accepts non-ASCII Unicode letters; see the counterexample. -/
theorem c7_ascii_nonletter_fails (s : List Char)
    (hascii : ∀ c ∈ s, c.toNat < 128)
    (hbad : ∃ c ∈ s, isLetterAZ c = false) :
    ∃ c, Utills.convert_26_base_to_decimal s = .error c ∧ Utills.pyIsAlpha c = false :=
  convert26Go_error_of_bad s 0 hascii hbad

/-- C7 witness: the ASCII string "A!" contains the non-letter `!` and is
rejected. -/
theorem c7_ascii_nonletter_fails_witness :
    ∃ c, Utills.convert_26_base_to_decimal ['A', '!'] = .error c ∧
      Utills.pyIsAlpha c = false :=
  c7_ascii_nonletter_fails ['A', '!'] (by decide) ⟨'!', by decide, by decide⟩

/-- C7 counterexample: `é` (U+00E9) is not an ASCII letter, yet
`labelToIndex` accepts the string "é" and decodes it to 137 instead of
failing, because Python's `isalpha` accepts every Unicode letter. -/
theorem c7_counterexample :
    Utills.convert_26_base_to_decimal [Char.ofNat 233] = .ok 137 ∧
    isLetterAZ (Char.ofNat 233) = false := by
  exact ⟨rfl, rfl⟩

/-- C9: `labelToIndex` applied to the empty string returns 0 without
failing, matching `indexToLabel 0 = ""`. -/
theorem c9_empty_label :
    Utills.convert_26_base_to_decimal [] = .ok 0 ∧
    Utills.convert_decimal_to_26_base 0 = .ok [] :=
  ⟨rfl, rfl⟩

/-- C6 counterexample: the claim says `indexToLabel` returns the empty
string for every `n ≤ 0`; at `n = -1` the code instead raises
`ValueError`. -/
theorem c6_counterexample :
    Utills.convert_decimal_to_26_base (-1) = .error "Only non-negative numbers are allowed." ∧
    Utills.convert_decimal_to_26_base (-1) ≠ .ok [] := by
  refine ⟨rfl, fun h => ?_⟩
  rw [show Utills.convert_decimal_to_26_base (-1) =
      .error "Only non-negative numbers are allowed." from rfl] at h
  exact Except.noConfusion h

/-- C6 (amended): `indexToLabel 0` returns the empty string, but for
negative `n` the code fails with `InvalidIndex` (a `ValueError`) instead
of returning the empty string. -/
theorem c6_nonpositive (n : Int) (h : n ≤ 0) :
    Utills.convert_decimal_to_26_base n =
      if n = 0 then .ok [] else .error "Only non-negative numbers are allowed." := by
  unfold Utills.convert_decimal_to_26_base
  rcases eq_or_lt_of_le h with h0 | hneg
  · subst h0
    rw [if_neg (by omega), if_pos rfl]
    rfl
  · rw [if_pos hneg, if_neg (by omega)]

/-- C6 witness: the amended statement evaluated at `-1` and at `0`. -/
theorem c6_nonpositive_witness :
    (Utills.convert_decimal_to_26_base (-1) =
      if (-1 : Int) = 0 then .ok [] else .error "Only non-negative numbers are allowed.") ∧
    (Utills.convert_decimal_to_26_base 0 =
      if (0 : Int) = 0 then .ok [] else .error "Only non-negative numbers are allowed.") :=
  ⟨c6_nonpositive (-1) (by decide), c6_nonpositive 0 (by decide)⟩

/-- C1: the mixed-arithmetic grid evaluates to the predicted integer grid:
literals evaluate to themselves, the empty cell to 0, and each three-token
formula to the sum or difference of its operands. -/
theorem c1_mixed_arithmetic :
    Spreadsheet.runGrid [["10", "20", ""], ["=A1+5", "=B1-10", "=A1+B1"]] 30 =
      .ok (.ok [[10, 20, 0], [15, 10, 30]]) := rfl

/-- C5 counterexample: the claim says the cell `"=-5"` resolves to the
value 5; in fact evaluation fails with `InvalidFormulaError` naming
`-5`. -/
theorem c5_counterexample :
    Spreadsheet.runGrid [["=-5"]] 9 = .ok (.error (.invalidFormula "-5")) ∧
    Spreadsheet.runGrid [["=-5"]] 9 ≠ .ok (.ok [[5]]) := by
  refine ⟨rfl, fun h => ?_⟩
  rw [show Spreadsheet.runGrid [["=-5"]] 9 =
      .ok (.error (.invalidFormula "-5")) from rfl] at h
  exact Except.noConfusion (Except.ok.inj h)

/-- C5 (amended): splitting `-5` produces an empty left fragment that is
discarded, but the minus sign is retained as an operator token, so two
tokens remain and the cell fails with `InvalidFormulaError` naming `-5`;
the cell does not resolve to 5. -/
theorem c5_unary_minus :
    Spreadsheet.pySplitOps "-5".data = [[], ['-'], ['5']] ∧
    Spreadsheet.splitTokens "-5".data = [['-'], ['5']] ∧
    Spreadsheet.runGrid [["=-5"]] 9 = .ok (.error (.invalidFormula "-5")) :=
  ⟨rfl, rfl, rfl⟩

/-- C4: formula evaluation agrees with the claim's description: split on
`+` and `-` retaining the operators, trim and drop empty fragments; one
remaining token is evaluated directly, three are `left op right` (both
operands evaluated, then `+` adds and `-` subtracts), and any other token
count fails with `InvalidFormulaError` naming the formula text. -/
theorem c4_formula_shapes (f : Nat) (σ : Spreadsheet.Sheet) (fml : List Char) :
    Spreadsheet.evaluate_formula (f + 1) σ fml = Spreadsheet.formulaSpec f σ fml := by
  unfold Spreadsheet.evaluate_formula Spreadsheet.formulaSpec
  rcases h : Spreadsheet.splitTokens fml with _ | ⟨a, _ | ⟨b, _ | ⟨c, _ | ⟨d, e⟩⟩⟩⟩ <;>
    simp [h]

/-- Splitting the accumulator out of the encode loop. -/
theorem toBase26Go_append (n : Nat) :
    ∀ acc, Utills.toBase26Go n acc = Utills.toBase26Go n [] ++ acc := by
  induction n using Nat.strong_induction_on with
  | _ n ih =>
    intro acc
    rcases Nat.eq_zero_or_pos n with rfl | hp
    · rfl
    · have hlt : (n - 1) / 26 < n :=
        Nat.lt_of_le_of_lt (Nat.div_le_self _ _) (by omega)
      rw [toBase26Go_eq n acc, toBase26Go_eq n [], if_neg (by omega), if_neg (by omega)]
      rw [ih _ hlt (Char.ofNat ((n - 1) % 26 + 65) :: acc),
        ih _ hlt [Char.ofNat ((n - 1) % 26 + 65)]]
      simp

/-- One bijective base-26 digit step of the encode loop. -/
theorem toBase26Go_step (m d : Nat) (h1 : 1 ≤ d) (h2 : d ≤ 26) :
    Utills.toBase26Go (26 * m + d) [] = Utills.toBase26Go m [] ++ [Char.ofNat (d + 64)] := by
  rw [toBase26Go_eq, if_neg (by omega)]
  have e1 : (26 * m + d - 1) / 26 = m := by
    rw [show 26 * m + d - 1 = (d - 1) + m * 26 by omega]
    rw [Nat.add_mul_div_right _ _ (by norm_num), Nat.div_eq_of_lt (by omega)]
    omega
  have e2 : (26 * m + d - 1) % 26 = d - 1 := by
    rw [show 26 * m + d - 1 = (d - 1) + m * 26 by omega]
    rw [Nat.add_mul_mod_self_right, Nat.mod_eq_of_lt (by omega)]
  rw [e1, e2, toBase26Go_append, show d - 1 + 65 = d + 64 by omega]

/-- Every character the encoder emits is an uppercase ASCII letter. -/
theorem toBase26Go_mem_range (n : Nat) :
    ∀ c ∈ Utills.toBase26Go n [], 65 ≤ c.toNat ∧ c.toNat ≤ 90 := by
  induction n using Nat.strong_induction_on with
  | _ n ih =>
    intro c hc
    rcases Nat.eq_zero_or_pos n with rfl | hp
    · exact absurd hc (List.not_mem_nil c)
    · have hlt : (n - 1) / 26 < n :=
        Nat.lt_of_le_of_lt (Nat.div_le_self _ _) (by omega)
      rw [toBase26Go_eq, if_neg (by omega), toBase26Go_append] at hc
      rcases List.mem_append.mp hc with h | h
      · exact ih _ hlt c h
      · have : c = Char.ofNat ((n - 1) % 26 + 65) := by simpa using h
        subst this
        have hm : (n - 1) % 26 < 26 := Nat.mod_lt _ (by norm_num)
        rw [char_toNat_ofNat (by omega)]
        omega

/-- On strings of uppercase ASCII letters the decode loop is the plain
bijective base-26 fold. -/
theorem convert26Go_upper (s : List Char) :
    ∀ res, (∀ c ∈ s, 65 ≤ c.toNat ∧ c.toNat ≤ 90) →
      Utills.convert26Go res s =
        .ok (s.foldl (fun a c => a * 26 + (c.toNat - 64)) res) := by
  induction s with
  | nil => intro res _; rfl
  | cons a as ih =>
    intro res h
    have ha : 65 ≤ a.toNat ∧ a.toNat ≤ 90 := h a (List.mem_cons_self a as)
    have hlow : Utills.pyIsLower a = false := by
      simp only [Utills.pyIsLower, isLowerAZ, Bool.or_eq_false_iff, decide_eq_false_iff_not,
        beq_eq_false_iff_ne]
      omega
    have halpha : Utills.pyIsAlpha a = true := by
      simp only [Utills.pyIsAlpha, isLetterAZ, isUpperAZ, Bool.or_eq_true, decide_eq_true_eq]
      left; left; omega
    simp only [Utills.convert26Go, hlow, Bool.false_eq_true, if_false, halpha, if_true]
    rw [ih _ (fun c hc => h c (List.mem_cons_of_mem a hc)),
      show a.toNat - 65 + 1 = a.toNat - 64 by omega]
    rfl

/-- Decoding inverts encoding on every natural number. -/
theorem decode_encode (n : Nat) :
    (Utills.toBase26Go n []).foldl (fun a c => a * 26 + (c.toNat - 64)) 0 = n := by
  induction n using Nat.strong_induction_on with
  | _ n ih =>
    rcases Nat.eq_zero_or_pos n with rfl | hp
    · rfl
    · have hdm := Nat.div_add_mod (n - 1) 26
      have hn : n = 26 * ((n - 1) / 26) + ((n - 1) % 26 + 1) := by omega
      have hmlt : (n - 1) / 26 < n :=
        Nat.lt_of_le_of_lt (Nat.div_le_self _ _) (by omega)
      have hd1 : 1 ≤ (n - 1) % 26 + 1 := by omega
      have hd2 : (n - 1) % 26 + 1 ≤ 26 := by
        have : (n - 1) % 26 < 26 := Nat.mod_lt _ (by norm_num)
        omega
      conv_lhs => rw [hn, toBase26Go_step _ _ hd1 hd2]
      rw [List.foldl_append]
      simp only [List.foldl_cons, List.foldl_nil]
      rw [ih _ hmlt, char_toNat_ofNat (by omega)]
      omega

/-- Encoding inverts decoding on every non-empty uppercase-ASCII string. -/
theorem encode_decode (s : List Char) (hs : s ≠ [])
    (hup : ∀ c ∈ s, 65 ≤ c.toNat ∧ c.toNat ≤ 90) :
    Utills.toBase26Go (s.foldl (fun a c => a * 26 + (c.toNat - 64)) 0) [] = s := by
  induction s using List.reverseRecOn with
  | nil => exact absurd rfl hs
  | append_singleton xs c ih =>
    have hc : 65 ≤ c.toNat ∧ c.toNat ≤ 90 := hup c (by simp)
    rw [List.foldl_append]
    simp only [List.foldl_cons, List.foldl_nil]
    have hd1 : 1 ≤ c.toNat - 64 := by omega
    have hd2 : c.toNat - 64 ≤ 26 := by omega
    rw [show (xs.foldl (fun a c => a * 26 + (c.toNat - 64)) 0) * 26 + (c.toNat - 64) =
        26 * (xs.foldl (fun a c => a * 26 + (c.toNat - 64)) 0) + (c.toNat - 64) by ring]
    rw [toBase26Go_step _ _ hd1 hd2, show c.toNat - 64 + 64 = c.toNat by omega,
      Char.ofNat_toNat]
    rcases List.eq_nil_or_concat xs with rfl | _
    · rfl
    · rw [ih (by rintro rfl; simp at *) (fun d hd => hup d (List.mem_append_left _ hd))]

/-- C2: the label codec is a bijection on its intended domain: for every
integer `n ≥ 1`, `labelToIndex (indexToLabel n) = n`, and for every
non-empty string of uppercase ASCII letters `s`,
`indexToLabel (labelToIndex s) = s`. -/
theorem c2_roundtrip (n : Int) (s : List Char)
    (hn : 1 ≤ n) (hs : s ≠ [])
    (hup : ∀ c ∈ s, 65 ≤ c.toNat ∧ c.toNat ≤ 90) :
    (∃ lbl, Utills.convert_decimal_to_26_base n = .ok lbl ∧
      Utills.convert_26_base_to_decimal lbl = .ok n.toNat ∧ (n.toNat : Int) = n) ∧
    (∃ m, Utills.convert_26_base_to_decimal s = .ok m ∧
      Utills.convert_decimal_to_26_base (m : Int) = .ok s) := by
  constructor
  · refine ⟨Utills.toBase26Go n.toNat [], ?_, ?_, Int.toNat_of_nonneg (by omega)⟩
    · unfold Utills.convert_decimal_to_26_base
      rw [if_neg (by omega)]
    · unfold Utills.convert_26_base_to_decimal
      rw [convert26Go_upper _ _ (toBase26Go_mem_range n.toNat), decode_encode]
  · refine ⟨s.foldl (fun a c => a * 26 + (c.toNat - 64)) 0, ?_, ?_⟩
    · unfold Utills.convert_26_base_to_decimal
      rw [convert26Go_upper _ _ hup]
    · unfold Utills.convert_decimal_to_26_base
      rw [if_neg (by omega)]
      rw [show (Int.toNat ((s.foldl (fun a c => a * 26 + (c.toNat - 64)) 0 : Nat) : Int)) =
          s.foldl (fun a c => a * 26 + (c.toNat - 64)) 0 from Int.toNat_natCast _]
      rw [encode_decode s hs hup]

/-- C2 witness: the round trip evaluated at `n = 27` and `s = "AA"`. -/
theorem c2_roundtrip_witness :
    (∃ lbl, Utills.convert_decimal_to_26_base 27 = .ok lbl ∧
      Utills.convert_26_base_to_decimal lbl = .ok (Int.toNat 27) ∧
      ((Int.toNat 27 : Nat) : Int) = 27) ∧
    (∃ m, Utills.convert_26_base_to_decimal ['A', 'A'] = .ok m ∧
      Utills.convert_decimal_to_26_base (m : Int) = .ok ['A', 'A']) :=
  c2_roundtrip 27 ['A', 'A'] (by decide) (by decide) (by decide)

/-- Reflexivity of the step discipline. -/
theorem Effects_refl (σ : Sheet) : Effects σ σ :=
  ⟨⟨rfl, rfl, rfl⟩, fun _ _ => Or.inl ⟨rfl, rfl⟩⟩

/-- Transitivity of the step discipline. -/
theorem Effects_trans {σ1 σ2 σ3 : Sheet}
    (h12 : Effects σ1 σ2) (h23 : Effects σ2 σ3) : Effects σ1 σ3 := by
  obtain ⟨⟨hr12, hc12, hd12⟩, hp12⟩ := h12
  obtain ⟨⟨hr23, hc23, hd23⟩, hp23⟩ := h23
  refine ⟨⟨hr23.trans hr12, hc23.trans hc12, hd23.trans hd12⟩, ?_⟩
  intro y z
  rcases hp12 y z with ⟨hs, hv⟩ | hbad
  · rcases hp23 y z with ⟨hs2, hv2⟩ | hbad2
    · exact Or.inl ⟨hs2.trans hs, hv2.trans hv⟩
    · rw [hs] at hbad2
      exact Or.inr hbad2
  · exact Or.inr hbad

/-- Reflexivity of the success discipline. -/
theorem OkEffects_refl (σ : Sheet) : OkEffects σ σ :=
  fun _ _ => Or.inl ⟨rfl, rfl⟩

/-- Transitivity of the success discipline. -/
theorem OkEffects_trans {σ1 σ2 σ3 : Sheet}
    (h12 : OkEffects σ1 σ2) (h23 : OkEffects σ2 σ3) : OkEffects σ1 σ3 := by
  intro y z
  rcases h12 y z with ⟨hs, hv⟩ | ⟨a1, a2, a3⟩
  · rcases h23 y z with ⟨hs2, hv2⟩ | ⟨g1, g2, g3⟩
    · exact Or.inl ⟨hs2.trans hs, hv2.trans hv⟩
    · rw [hs] at g1 g2
      exact Or.inr ⟨g1, g2, g3⟩
  · rcases h23 y z with ⟨hs2, hv2⟩ | ⟨g1, g2, g3⟩
    · exact Or.inr ⟨a1, a2, hs2.trans a3⟩
    · exact absurd a3 g1

/-- Marking a cell `EVALUATING` obeys the step discipline. -/
theorem effects_through_mark {σ σ2 : Sheet} {r c : Nat}
    (h1 : σ.state r c ≠ EVALUATED) (h2 : σ.state r c ≠ EVALUATING)
    (he : Effects (setState σ r c EVALUATING) σ2) : Effects σ σ2 := by
  obtain ⟨hd, hp⟩ := he
  refine ⟨hd, ?_⟩
  intro y z
  by_cases hyz : y = r ∧ z = c
  · obtain ⟨rfl, rfl⟩ := hyz
    exact Or.inr ⟨h1, h2⟩
  · rcases hp y z with ⟨hs, hv⟩ | hbad
    · refine Or.inl ⟨?_, hv⟩
      rw [hs]
      simp [setState, hyz]
    · have hss : (setState σ r c EVALUATING).state y z = σ.state y z := by
        simp [setState, hyz]
      rw [hss] at hbad
      exact Or.inr hbad

/-- Storing a value and marking the owning cell `EVALUATED` preserves the
step discipline. -/
theorem effects_update {σ σ2 : Sheet} {r c : Nat} (v : Int)
    (h1 : σ.state r c ≠ EVALUATED) (h2 : σ.state r c ≠ EVALUATING)
    (he : Effects σ σ2) :
    Effects σ (setState (setValue σ2 r c v) r c EVALUATED) := by
  obtain ⟨⟨hr, hc, hd⟩, hp⟩ := he
  refine ⟨⟨hr, hc, hd⟩, ?_⟩
  intro y z
  by_cases hyz : y = r ∧ z = c
  · obtain ⟨rfl, rfl⟩ := hyz
    exact Or.inr ⟨h1, h2⟩
  · have hs : (setState (setValue σ2 r c v) r c EVALUATED).state y z = σ2.state y z := by
      simp [setState, setValue, hyz]
    have hv : (setState (setValue σ2 r c v) r c EVALUATED).values y z = σ2.values y z := by
      simp [setState, setValue, hyz]
    rcases hp y z with ⟨a, b⟩ | hbad
    · exact Or.inl ⟨hs.trans a, hv.trans b⟩
    · exact Or.inr hbad

/-- Storing a value and marking the owning cell `EVALUATED` after a
successful body preserves the success discipline. -/
theorem okeffects_update {σ σ2 : Sheet} {r c : Nat} (v : Int)
    (h1 : σ.state r c ≠ EVALUATED) (h2 : σ.state r c ≠ EVALUATING)
    (hok : OkEffects (setState σ r c EVALUATING) σ2) :
    OkEffects σ (setState (setValue σ2 r c v) r c EVALUATED) := by
  intro y z
  by_cases hyz : y = r ∧ z = c
  · obtain ⟨rfl, rfl⟩ := hyz
    refine Or.inr ⟨h1, h2, ?_⟩
    simp [setState, setValue]
  · have hs1 : (setState σ r c EVALUATING).state y z = σ.state y z := by
      simp [setState, hyz]
    have hs : (setState (setValue σ2 r c v) r c EVALUATED).state y z = σ2.state y z := by
      simp [setState, setValue, hyz]
    have hv : (setState (setValue σ2 r c v) r c EVALUATED).values y z = σ2.values y z := by
      simp [setState, setValue, hyz]
    rcases hok y z with ⟨a, b⟩ | ⟨a, b, ceq⟩
    · exact Or.inl ⟨hs.trans (a.trans hs1), hv.trans b⟩
    · rw [hs1] at a b
      exact Or.inr ⟨a, b, hs.trans ceq⟩

/-- Marking a not-yet-started cell `EVALUATING` obeys the step
discipline. -/
theorem effects_mark {σ : Sheet} {r c : Nat}
    (h1 : σ.state r c ≠ EVALUATED) (h2 : σ.state r c ≠ EVALUATING) :
    Effects σ (setState σ r c EVALUATING) :=
  effects_through_mark h1 h2 (Effects_refl _)

/-- The owning cell is `EVALUATED` once a value is stored. -/
theorem state_after_finish (σ2 : Sheet) (r c : Nat) (v : Int) :
    (setState (setValue σ2 r c v) r c EVALUATED).state r c = EVALUATED := by
  simp [setState, setValue]

/-- Behaviour of the three mutually recursive evaluators on the marker and
value tables: every call obeys the step discipline, every successful call
obeys the success discipline, and a successful cell evaluation leaves its
cell `EVALUATED`. -/
theorem eval_effects : ∀ fuel : Nat,
    (∀ σ r c res σ', evaluate_cell fuel σ r c = (res, σ') →
      Effects σ σ' ∧ ∀ v, res = .ok v → OkEffects σ σ' ∧ σ'.state r c = EVALUATED) ∧
    (∀ σ fml res σ', evaluate_formula fuel σ fml = (res, σ') →
      Effects σ σ' ∧ ∀ v, res = .ok v → OkEffects σ σ') ∧
    (∀ σ t res σ', evaluate_token fuel σ t = (res, σ') →
      Effects σ σ' ∧ ∀ v, res = .ok v → OkEffects σ σ') := by
  intro fuel
  induction fuel with
  | zero =>
    refine ⟨?_, ?_, ?_⟩
    · intro σ r c res σ' h
      injection h with h1 h2
      subst h1; subst h2
      exact ⟨Effects_refl σ, fun v hv => Except.noConfusion hv⟩
    · intro σ fml res σ' h
      injection h with h1 h2
      subst h1; subst h2
      exact ⟨Effects_refl σ, fun v hv => Except.noConfusion hv⟩
    · intro σ t res σ' h
      injection h with h1 h2
      subst h1; subst h2
      exact ⟨Effects_refl σ, fun v hv => Except.noConfusion hv⟩
  | succ fuel ih =>
    obtain ⟨ihc, ihf, iht⟩ := ih
    refine ⟨?_, ?_, ?_⟩
    · -- evaluate_cell
      intro σ r c res σ' h
      simp only [evaluate_cell] at h
      split at h
      · -- memo hit
        rename_i h1
        injection h with e1 e2
        subst e1; subst e2
        exact ⟨Effects_refl σ, fun v hv => ⟨OkEffects_refl σ, h1⟩⟩
      · rename_i h1
        split at h
        · -- circular reference
          injection h with e1 e2
          subst e1; subst e2
          exact ⟨Effects_refl σ, fun v hv => Except.noConfusion hv⟩
        · rename_i h2
          split at h
          · -- blank cell
            injection h with e1 e2
            subst e1; subst e2
            refine ⟨effects_update 0 h1 h2 (effects_mark h1 h2), fun v hv => ?_⟩
            exact ⟨okeffects_update 0 h1 h2 (OkEffects_refl _), state_after_finish _ r c 0⟩
          · split at h
            · -- formula cell
              split at h
              · -- formula succeeded
                rename_i v σ2 heq
                injection h with e1 e2
                subst e1; subst e2
                have hf := ihf _ _ _ _ heq
                refine ⟨effects_update v h1 h2 (effects_through_mark h1 h2 hf.1),
                  fun w hw => ?_⟩
                exact ⟨okeffects_update v h1 h2 (hf.2 v rfl),
                  state_after_finish _ r c v⟩
              · -- formula failed
                rename_i e σ2 heq
                injection h with e1 e2
                subst e1; subst e2
                have hf := ihf _ _ _ _ heq
                exact ⟨effects_through_mark h1 h2 hf.1,
                  fun v hv => Except.noConfusion hv⟩
            · -- integer literal cell
              split at h
              · -- parsed
                rename_i v heq
                injection h with e1 e2
                subst e1; subst e2
                refine ⟨effects_update v h1 h2 (effects_mark h1 h2), fun w hw => ?_⟩
                exact ⟨okeffects_update v h1 h2 (OkEffects_refl _),
                  state_after_finish _ r c v⟩
              · -- unparsable
                injection h with e1 e2
                subst e1; subst e2
                exact ⟨effects_mark h1 h2, fun v hv => Except.noConfusion hv⟩
    · -- evaluate_formula
      intro σ fml res σ' h
      simp only [evaluate_formula] at h
      split at h
      · -- single token
        exact ⟨(iht _ _ _ _ h).1, (iht _ _ _ _ h).2⟩
      · -- three tokens
        rename_i l op r
        split at h
        · -- left operand succeeded
          rename_i lv σ1 heq1
          split at h
          · -- right operand succeeded
            rename_i rv σ2 heq2
            have h1 := iht _ _ _ _ heq1
            have h2 := iht _ _ _ _ heq2
            have hef : Effects σ σ2 := Effects_trans h1.1 h2.1
            have hok : OkEffects σ σ2 :=
              OkEffects_trans (h1.2 lv rfl) (h2.2 rv rfl)
            split at h
            · injection h with e1 e2
              subst e1; subst e2
              exact ⟨hef, fun v hv => hok⟩
            · split at h
              · injection h with e1 e2
                subst e1; subst e2
                exact ⟨hef, fun v hv => hok⟩
              · injection h with e1 e2
                subst e1; subst e2
                exact ⟨hef, fun v hv => Except.noConfusion hv⟩
          · -- right operand failed
            rename_i e σ2 heq2
            injection h with e1 e2
            subst e1; subst e2
            have h1 := iht _ _ _ _ heq1
            have h2 := iht _ _ _ _ heq2
            exact ⟨Effects_trans h1.1 h2.1, fun v hv => Except.noConfusion hv⟩
        · -- left operand failed
          rename_i e σ1 heq1
          injection h with e1 e2
          subst e1; subst e2
          exact ⟨(iht _ _ _ _ heq1).1, fun v hv => Except.noConfusion hv⟩
      · -- any other token count
        injection h with e1 e2
        subst e1; subst e2
        exact ⟨Effects_refl σ, fun v hv => Except.noConfusion hv⟩
    · -- evaluate_token
      intro σ t res σ' h
      simp only [evaluate_token] at h
      split at h
      · -- reference
        split at h
        · -- parsed reference: recursive cell evaluation
          rename_i p heq
          have hc := ihc _ _ _ _ _ h
          exact ⟨hc.1, fun v hv => (hc.2 v hv).1⟩
        · -- reference parse failure
          injection h with e1 e2
          subst e1; subst e2
          exact ⟨Effects_refl σ, fun v hv => Except.noConfusion hv⟩
      · -- literal token
        split at h
        · rename_i v heq
          injection h with e1 e2
          subst e1; subst e2
          exact ⟨Effects_refl σ, fun v hv => OkEffects_refl σ⟩
        · injection h with e1 e2
          subst e1; subst e2
          exact ⟨Effects_refl σ, fun v hv => Except.noConfusion hv⟩

/-- The row-major sweep obeys the step discipline. -/
theorem evalCells_effects : ∀ (l : List (Nat × Nat)) (fuel : Nat) (σ : Sheet) res σ',
    evalCells fuel σ l = (res, σ') → Effects σ σ' := by
  intro l
  induction l with
  | nil =>
    intro fuel σ res σ' h
    injection h with e1 e2
    subst e1; subst e2
    exact Effects_refl σ
  | cons p rest ih =>
    intro fuel σ res σ' h
    obtain ⟨r, c⟩ := p
    simp only [evalCells] at h
    split at h
    · split at h
      · rename_i v σ1 heq
        exact Effects_trans ((eval_effects fuel).1 _ _ _ _ _ heq).1 (ih _ _ _ _ h)
      · rename_i e σ1 heq
        injection h with e1 e2
        subst e1; subst e2
        exact ((eval_effects fuel).1 _ _ _ _ _ heq).1
    · exact ih _ _ _ _ h

/-- A successful sweep obeys the success discipline and leaves every
visited cell `EVALUATED`. -/
theorem evalCells_ok : ∀ (l : List (Nat × Nat)) (fuel : Nat) (σ : Sheet) u σ',
    evalCells fuel σ l = (.ok u, σ') →
    OkEffects σ σ' ∧ ∀ p ∈ l, σ'.state p.1 p.2 = EVALUATED := by
  intro l
  induction l with
  | nil =>
    intro fuel σ u σ' h
    injection h with e1 e2
    subst e2
    exact ⟨OkEffects_refl σ, fun p hp => absurd hp (List.not_mem_nil p)⟩
  | cons p rest ih =>
    intro fuel σ u σ' h
    obtain ⟨r, c⟩ := p
    simp only [evalCells] at h
    split at h
    · split at h
      · rename_i v σ1 heq
        have hcell := ((eval_effects fuel).1 _ _ _ _ _ heq).2 v rfl
        obtain ⟨hok1, hrest⟩ := ih _ _ _ _ h
        have hhead : σ'.state r c = EVALUATED := by
          rcases hok1 r c with ⟨hs, _⟩ | ⟨_, _, hpost⟩
          · rw [hs]; exact hcell.2
          · exact hpost
        refine ⟨OkEffects_trans hcell.1 hok1, ?_⟩
        intro q hq
        rcases List.mem_cons.mp hq with rfl | hq2
        · exact hhead
        · exact hrest q hq2
      · rename_i e σ1 heq
        injection h with e1 e2
        exact Except.noConfusion e1
    · rename_i hskip
      have hcur : σ.state r c = EVALUATED := Decidable.not_not.mp hskip
      obtain ⟨hok1, hrest⟩ := ih _ _ _ _ h
      have hhead : σ'.state r c = EVALUATED := by
        rcases hok1 r c with ⟨hs, _⟩ | ⟨_, _, hpost⟩
        · rw [hs]; exact hcur
        · exact hpost
      refine ⟨hok1, ?_⟩
      intro q hq
      rcases List.mem_cons.mp hq with rfl | hq2
      · exact hhead
      · exact hrest q hq2

/-- A sweep over cells that are all already `EVALUATED` does nothing. -/
theorem evalCells_skip : ∀ (l : List (Nat × Nat)) (fuel : Nat) (σ : Sheet),
    (∀ p ∈ l, σ.state p.1 p.2 = EVALUATED) → evalCells fuel σ l = (.ok (), σ) := by
  intro l
  induction l with
  | nil => intro fuel σ _; rfl
  | cons p rest ih =>
    intro fuel σ h
    obtain ⟨r, c⟩ := p
    simp only [evalCells]
    rw [if_neg (not_not_intro (h (r, c) (List.mem_cons_self _ _)))]
    exact ih fuel σ (fun q hq => h q (List.mem_cons_of_mem _ hq))

/-- Membership in the row-major coordinate list is exactly being in
bounds. -/
theorem mem_coordsList {rows cols r c : Nat} :
    (r, c) ∈ coordsList rows cols ↔ r < rows ∧ c < cols := by
  simp only [coordsList, List.mem_flatMap, List.mem_map, List.mem_range]
  constructor
  · rintro ⟨a, ha, b, hb, heq⟩
    injection heq with e1 e2
    subst e1; subst e2
    exact ⟨ha, hb⟩
  · rintro ⟨h1, h2⟩
    exact ⟨r, h1, c, h2, rfl⟩

/-- C8: if `evaluateAll` succeeds then every cell's marker is `Done`, and
calling `evaluateAll` again on the same instance — with any recursion
budget at all, since no cell is recomputed — returns the identical result
and leaves the instance unchanged. -/
theorem c8_idempotent (g : List (List (List Char))) (σ0 : Sheet) (fuel : Nat)
    (vals : List (List Int)) (σ1 : Sheet)
    (hinit : init g = .ok σ0)
    (hrun : evaluate fuel σ0 = (.ok vals, σ1)) :
    (∀ r, r < σ1.rows → ∀ c, c < σ1.cols → σ1.state r c = EVALUATED) ∧
    ∀ fuel2, evaluate fuel2 σ1 = (.ok vals, σ1) := by
  unfold evaluate at hrun
  split at hrun
  · rename_i u σone heq
    injection hrun with e1 e2
    subst e2
    injection e1 with e1
    subst e1
    obtain ⟨hok, hdone⟩ := evalCells_ok _ _ _ _ _ heq
    have hdims : dimsEq σ0 σone := (evalCells_effects _ _ _ _ _ heq).1
    have hall : ∀ r, r < σone.rows → ∀ c, c < σone.cols → σone.state r c = EVALUATED := by
      intro r hr c hc
      refine hdone (r, c) (mem_coordsList.mpr ⟨?_, ?_⟩)
      · rw [← hdims.1]; exact hr
      · rw [← hdims.2.1]; exact hc
    refine ⟨hall, ?_⟩
    intro fuel2
    have hskip : evalCells fuel2 σone (coordsList σone.rows σone.cols) = (.ok (), σone) := by
      refine evalCells_skip _ _ _ ?_
      intro p hp
      obtain ⟨r, c⟩ := p
      have := mem_coordsList.mp hp
      exact hall r this.1 c this.2
    unfold evaluate
    rw [hskip]
  · rename_i e σone heq
    injection hrun with e1 e2
    exact Except.noConfusion e1

/-- C8 witness: the grid `[["1", "=A1+1"]]` evaluated, with both markers
`Done` afterwards and a re-evaluation (even with no recursion budget)
returning the identical result and state. -/
theorem c8_idempotent_witness :
    sheetA1.state 0 0 = EVALUATED ∧ sheetA1.state 0 1 = EVALUATED ∧
    evaluate 0 sheetA1 = (.ok [[1, 2]], sheetA1) := by
  have h := c8_idempotent (mkGrid [["1", "=A1+1"]]) sheetA 30 [[1, 2]] sheetA1 rfl rfl
  exact ⟨h.1 0 (by decide) 0 (by decide), h.1 0 (by decide) 1 (by decide), h.2 0⟩

/-- A sheet built by `init` has every cell `NotStarted`, zero values, its
grid as data, dimensions covering the grid, and rectangular rows. -/
theorem init_spec (g : List (List (List Char))) (σ0 : Sheet) (h : init g = .ok σ0) :
    σ0.data = g ∧ σ0.state = (fun _ _ => NOT_EVALUATED) ∧
    σ0.values = (fun _ _ => 0) ∧ σ0.rows = g.length ∧
    ∀ row ∈ g, row.length = σ0.cols := by
  simp only [init] at h
  generalize hq : (if g.length > 0 then (g.headD []).length else 0) = cv at h
  split at h
  · exact Except.noConfusion h
  · rename_i hany
    injection h with h1
    subst h1
    refine ⟨rfl, rfl, rfl, rfl, ?_⟩
    intro row hrow
    by_contra hne
    exact hany (List.any_eq_true.mpr ⟨row, hrow, by simpa using hne⟩)

/-- A step keeps `EVALUATING` cells `EVALUATING`. -/
theorem effects_keep_busy {σ1 σ2 : Sheet} (he : Effects σ1 σ2) {y z : Nat}
    (hb : σ1.state y z = EVALUATING) : σ2.state y z = EVALUATING := by
  rcases he.2 y z with ⟨hs, _⟩ | ⟨_, hneq⟩
  · rw [hs, hb]
  · exact absurd hb hneq

/-- A step keeps `EVALUATED` cells `EVALUATED`. -/
theorem effects_keep_done {σ1 σ2 : Sheet} (he : Effects σ1 σ2) {y z : Nat}
    (hd : σ1.state y z = EVALUATED) : σ2.state y z = EVALUATED := by
  rcases he.2 y z with ⟨hs, _⟩ | ⟨hneq, _⟩
  · rw [hs, hd]
  · exact absurd hd hneq

/-- A successful step introduces no `EVALUATING` cells. -/
theorem okeffects_nobusy {σ σ' : Sheet} (h : OkEffects σ σ') (hn : NoBusy σ) :
    NoBusy σ' := by
  intro y z
  rcases h y z with ⟨hs, _⟩ | ⟨_, _, hpost⟩
  · rw [hs]; exact hn y z
  · rw [hpost]; simp [EVALUATED, EVALUATING]

/-- A failing cell evaluation that actually started leaves its own cell
marked `EVALUATING` in the error state. -/
theorem cell_error_marks {fuel : Nat} {σ : Sheet} {r c : Nat} {e : Err} {σ' : Sheet}
    (hfuel : 1 ≤ fuel) (h1 : σ.state r c ≠ EVALUATED) (h2 : σ.state r c ≠ EVALUATING)
    (h : evaluate_cell fuel σ r c = (.error e, σ')) : σ'.state r c = EVALUATING := by
  obtain ⟨f, rfl⟩ : ∃ f, fuel = f + 1 := ⟨fuel - 1, by omega⟩
  simp only [evaluate_cell] at h
  rw [if_neg h1, if_neg h2] at h
  have hmark : (setState σ r c EVALUATING).state r c = EVALUATING := by
    simp [setState]
  split at h
  · injection h with e1 e2
    exact Except.noConfusion e1
  · split at h
    · split at h
      · injection h with e1 e2
        exact Except.noConfusion e1
      · rename_i e' σ2 heq
        injection h with e1 e2
        subst e2
        exact effects_keep_busy ((eval_effects f).2.1 _ _ _ _ heq).1 hmark
    · split at h
      · injection h with e1 e2
        exact Except.noConfusion e1
      · injection h with e1 e2
        subst e2
        exact hmark

/-- A failing sweep from a state with no `EVALUATING` cell pinpoints a
failing coordinate: the visited prefix before it ends up `EVALUATED` and
the failing coordinate itself ends up `EVALUATING`. -/
theorem evalCells_error : ∀ (l : List (Nat × Nat)) (fuel : Nat) (σ : Sheet) e σ',
    1 ≤ fuel → NoBusy σ → evalCells fuel σ l = (.error e, σ') →
    ∃ r c l1 l2, l = l1 ++ (r, c) :: l2 ∧ σ'.state r c = EVALUATING ∧
      ∀ p ∈ l1, σ'.state p.1 p.2 = EVALUATED := by
  intro l
  induction l with
  | nil =>
    intro fuel σ e σ' _ _ h
    injection h with e1 e2
    exact Except.noConfusion e1
  | cons p rest ih =>
    intro fuel σ e σ' hfuel hnb h
    obtain ⟨r, c⟩ := p
    simp only [evalCells] at h
    split at h
    · rename_i hne
      split at h
      · rename_i v σ1 heq
        have hcell := ((eval_effects fuel).1 _ _ _ _ _ heq).2 v rfl
        have hnb1 : NoBusy σ1 := okeffects_nobusy hcell.1 hnb
        obtain ⟨r2, c2, l1, l2, hsplit, hbusy, hpre⟩ := ih fuel σ1 e σ' hfuel hnb1 h
        have heff : Effects σ1 σ' := evalCells_effects rest fuel σ1 _ _ h
        refine ⟨r2, c2, (r, c) :: l1, l2, by rw [hsplit]; rfl, hbusy, ?_⟩
        intro q hq
        rcases List.mem_cons.mp hq with rfl | hq2
        · exact effects_keep_done heff hcell.2
        · exact hpre q hq2
      · rename_i e' σ1 heq
        injection h with e1 e2
        injection e1 with e1
        subst e1; subst e2
        refine ⟨r, c, [], rest, rfl, ?_, fun q hq => absurd hq (List.not_mem_nil q)⟩
        exact cell_error_marks hfuel hne (hnb r c) heq
    · rename_i hskip
      have hcur : σ.state r c = EVALUATED := Decidable.not_not.mp hskip
      obtain ⟨r2, c2, l1, l2, hsplit, hbusy, hpre⟩ := ih fuel σ e σ' hfuel hnb h
      have heff : Effects σ σ' := evalCells_effects rest fuel σ _ _ h
      refine ⟨r2, c2, (r, c) :: l1, l2, by rw [hsplit]; rfl, hbusy, ?_⟩
      intro q hq
      rcases List.mem_cons.mp hq with rfl | hq2
      · exact effects_keep_done heff hcur
      · exact hpre q hq2

/-- A sweep that meets an `EVALUATING` cell after an `EVALUATED` prefix
fails there with `CircularReferenceError` naming that cell, with no state
change. -/
theorem evalCells_hit_busy :
    ∀ (l1 : List (Nat × Nat)) (r c : Nat) (l2 : List (Nat × Nat)) (fuel2 : Nat) (σ' : Sheet),
    1 ≤ fuel2 → (∀ p ∈ l1, σ'.state p.1 p.2 = EVALUATED) →
    σ'.state r c = EVALUATING →
    evalCells fuel2 σ' (l1 ++ (r, c) :: l2) =
      (.error (.circular (String.mk (cell_name r c))), σ') := by
  intro l1
  induction l1 with
  | nil =>
    intro r c l2 fuel2 σ' hfuel _ hb
    obtain ⟨f, rfl⟩ : ∃ f, fuel2 = f + 1 := ⟨fuel2 - 1, by omega⟩
    rw [List.nil_append]
    simp only [evalCells]
    rw [if_pos (by rw [hb]; simp [EVALUATED, EVALUATING])]
    have hcell : evaluate_cell (f + 1) σ' r c =
        (.error (.circular (String.mk (cell_name r c))), σ') := by
      simp only [evaluate_cell]
      rw [if_neg (by rw [hb]; simp [EVALUATED, EVALUATING]), if_pos hb]
    rw [hcell]
  | cons p l1 ih =>
    intro r c l2 fuel2 σ' hfuel hpre hb
    obtain ⟨r0, c0⟩ := p
    rw [List.cons_append]
    simp only [evalCells]
    rw [if_neg (not_not_intro (hpre (r0, c0) (List.mem_cons_self _ _)))]
    exact ih r c l2 fuel2 σ' hfuel (fun q hq => hpre q (List.mem_cons_of_mem _ hq)) hb

/-- The row-major coordinate list, described by linear indices. -/
theorem coordsList_eq_range (rows cols : Nat) :
    coordsList rows cols = (List.range (rows * cols)).map (fun i => (i / cols, i % cols)) := by
  induction rows with
  | zero => simp [coordsList]
  | succ rows ih =>
    have hstep : coordsList (rows + 1) cols =
        coordsList rows cols ++ (List.range cols).map (fun c => (rows, c)) := by
      simp only [coordsList, List.range_succ, List.flatMap_append, List.flatMap_cons,
        List.flatMap_nil, List.append_nil]
    rw [hstep, ih, show (rows + 1) * cols = rows * cols + cols by ring,
      List.range_add, List.map_append, List.map_map]
    congr 1
    refine List.map_congr_left ?_
    intro i hi
    have hi' : i < cols := List.mem_range.mp hi
    have hcpos : 0 < cols := by omega
    simp only [Function.comp]
    rw [show rows * cols + i = i + rows * cols by ring,
      Nat.add_mul_div_right _ _ hcpos, Nat.add_mul_mod_self_right,
      Nat.div_eq_of_lt hi', Nat.mod_eq_of_lt hi']
    simp

/-- The row-major coordinate list is strictly sorted by linear index. -/
theorem coordsList_sorted (rows cols : Nat) :
    List.Pairwise (fun p q : Nat × Nat => p.1 * cols + p.2 < q.1 * cols + q.2)
      (coordsList rows cols) := by
  rw [coordsList_eq_range, List.pairwise_map]
  refine List.Pairwise.imp ?_ (List.pairwise_lt_range _)
  intro i j hij
  simp only
  rw [Nat.mul_comm (i / cols) cols, Nat.mul_comm (j / cols) cols,
    Nat.div_add_mod i cols, Nat.div_add_mod j cols]
  exact hij

/-- C10: evaluation errors are not atomic with respect to the marker
table: when `evaluateAll` fails with any error, the failing coordinate is
left `EVALUATING` while every coordinate before it in row-major order is
`EVALUATED`, so a subsequent `evaluateAll` on the same instance fails with
`CircularReferenceError` naming that first still-`InProgress` cell — even
when the original error was of a different kind. -/
theorem c10_error_poisons (g : List (List (List Char))) (σ0 : Sheet) (fuel : Nat)
    (e : Err) (σ1 : Sheet)
    (hinit : init g = .ok σ0) (hfuel : 1 ≤ fuel)
    (herr : evaluate fuel σ0 = (.error e, σ1)) :
    ∃ r c, r < σ0.rows ∧ c < σ0.cols ∧ σ1.state r c = EVALUATING ∧
      (∀ r' c', r' < σ0.rows → c' < σ0.cols →
        r' * σ0.cols + c' < r * σ0.cols + c → σ1.state r' c' = EVALUATED) ∧
      ∀ fuel2, 1 ≤ fuel2 →
        evaluate fuel2 σ1 = (.error (.circular (String.mk (cell_name r c))), σ1) := by
  obtain ⟨hdata, hstate, hvalues, hrows, hrect⟩ := init_spec g σ0 hinit
  have hnb : NoBusy σ0 := by
    intro y z
    rw [hstate]
    simp [NOT_EVALUATED, EVALUATING]
  unfold evaluate at herr
  split at herr
  · rename_i u σx heq
    injection herr with e1 e2
    exact Except.noConfusion e1
  · rename_i e' σx heq
    injection herr with e1 e2
    injection e1 with e1
    subst e1
    subst e2
    obtain ⟨r, c, l1, l2, hsplitc, hbusy, hpre⟩ :=
      evalCells_error _ fuel σ0 _ _ hfuel hnb heq
    have hmemrc : (r, c) ∈ coordsList σ0.rows σ0.cols := by
      rw [hsplitc]
      exact List.mem_append_right _ (List.mem_cons_self _ _)
    have hbound := mem_coordsList.mp hmemrc
    have hdims : dimsEq σ0 σx := (evalCells_effects _ _ _ _ _ heq).1
    refine ⟨r, c, hbound.1, hbound.2, hbusy, ?_, ?_⟩
    · intro r' c' hr' hc' hlt
      have hmem' : (r', c') ∈ coordsList σ0.rows σ0.cols := mem_coordsList.mpr ⟨hr', hc'⟩
      rw [hsplitc] at hmem'
      rcases List.mem_append.mp hmem' with hin1 | hin2
      · exact hpre _ hin1
      · rcases List.mem_cons.mp hin2 with heq2 | hin3
        · injection heq2 with a b
          subst a; subst b
          exact absurd hlt (lt_irrefl _)
        · have hsort := coordsList_sorted σ0.rows σ0.cols
          rw [hsplitc] at hsort
          have h2 := (List.pairwise_append.mp hsort).2.1
          have h3 : r * σ0.cols + c < r' * σ0.cols + c' := by
            simpa using (List.pairwise_cons.mp h2).1 _ hin3
          exact absurd hlt (by omega)
    · intro fuel2 hf2
      unfold evaluate
      rw [hdims.1, hdims.2.1, hsplitc,
        evalCells_hit_busy l1 r c l2 fuel2 σx hf2 hpre hbusy]

/-- C10 witness: the one-cell grid `[["x"]]` fails with an invalid-literal
error; the instantiated conclusion exhibits the poisoned marker and the
circular failure of the second call. -/
theorem c10_error_poisons_witness :
    ∃ r c, r < sheetB.rows ∧ c < sheetB.cols ∧ sheetB1.state r c = EVALUATING ∧
      (∀ r' c', r' < sheetB.rows → c' < sheetB.cols →
        r' * sheetB.cols + c' < r * sheetB.cols + c → sheetB1.state r' c' = EVALUATED) ∧
      ∀ fuel2, 1 ≤ fuel2 →
        evaluate fuel2 sheetB1 = (.error (.circular (String.mk (cell_name r c))), sheetB1) :=
  c10_error_poisons (mkGrid [["x"]]) sheetB 5 (.invalidCellValue 1 1 "x") sheetB1 rfl
    (by omega) rfl

/-- The reference edges only depend on the construction-time fields. -/
theorem refEdgeB_dims {σ σ' : Sheet} (h : dimsEq σ σ') (p q : Nat × Nat) :
    refEdgeB σ' p q = refEdgeB σ p q := by
  obtain ⟨hr, hc, hd⟩ := h
  simp only [refEdgeB, cellData, hr, hc, hd]

/-- Successor-closedness only depends on the construction-time fields. -/
theorem succClosed_dims {σ σ' : Sheet} (h : dimsEq σ σ') {cs : List (Nat × Nat)}
    (hs : SuccClosed σ cs) : SuccClosed σ' cs := by
  intro p hp
  obtain ⟨q, hq, he⟩ := hs p hp
  exact ⟨q, hq, by rw [refEdgeB_dims h p q]; exact he⟩

/-- Cell cleanliness only depends on the construction-time fields. -/
theorem cleanCellB_dims {σ σ' : Sheet} (h : dimsEq σ σ') (r c : Nat) :
    cleanCellB σ' r c = cleanCellB σ r c := by
  obtain ⟨hr, hc, hd⟩ := h
  simp only [cleanCellB, cellData, hr, hc, hd]

/-- Grid cleanliness only depends on the construction-time fields. -/
theorem cleanSheet_dims {σ σ' : Sheet} (h : dimsEq σ σ') (hc : CleanSheet σ) :
    CleanSheet σ' := by
  intro r hr c hcc
  rw [cleanCellB_dims h]
  rw [h.1] at hr
  rw [h.2.1] at hcc
  exact hc r hr c hcc

/-- Blank out-of-bounds reads only depend on the construction-time
fields. -/
theorem oobBlank_dims {σ σ' : Sheet} (h : dimsEq σ σ') (ho : OobBlank σ) :
    OobBlank σ' := by
  intro r c
  rcases ho r c with ⟨h1, h2⟩ | h1
  · exact Or.inl ⟨by rw [h.1]; exact h1, by rw [h.2.1]; exact h2⟩
  · right
    unfold cellData
    rw [h.2.2]
    exact h1

/-- Outside a constructed sheet's bounds, every read is blank. -/
theorem init_oob (g : List (List (List Char))) (σ0 : Sheet) (h : init g = .ok σ0) :
    OobBlank σ0 := by
  obtain ⟨hdata, _, _, hrows, hrect⟩ := init_spec g σ0 h
  intro r c
  by_cases hr : r < σ0.rows
  · by_cases hc : c < σ0.cols
    · exact Or.inl ⟨hr, hc⟩
    · right
      unfold cellData
      rw [hdata]
      have hrg : r < g.length := by rw [← hrows]; exact hr
      have hmem : g.getD r [] ∈ g := by
        rw [List.getD_eq_getElem _ _ hrg]
        exact List.getElem_mem _
      have hlen : (g.getD r []).length = σ0.cols := hrect _ hmem
      refine List.getD_eq_default _ _ ?_
      omega
  · right
    unfold cellData
    rw [hdata]
    have hge : g.length ≤ r := by
      rw [hrows] at hr
      omega
    rw [show g.getD r [] = [] from List.getD_eq_default _ _ hge]
    rfl

/-- Successfully parsed references are in bounds. -/
theorem parse_reference_ok_bounds {rows cols : Nat} {t : List Char} {p : Nat × Nat}
    (h : parse_reference rows cols t = .ok p) : p.1 < rows ∧ p.2 < cols := by
  simp only [parse_reference] at h
  split at h
  · exact Except.noConfusion h
  · split at h
    · exact Except.noConfusion h
    · split at h
      · rename_i hcond
        injection h with h1
        subst h1
        obtain ⟨a, b, c', d⟩ := hcond
        constructor
        · simp only
          omega
        · simp only
          omega
      · exact Except.noConfusion h

/-- Reference parsing never raises a circular-reference error. -/
theorem parse_reference_no_circular {rows cols : Nat} {t : List Char} {e : Err}
    (h : parse_reference rows cols t = .error e) : ∀ lbl, e ≠ .circular lbl := by
  simp only [parse_reference] at h
  split at h
  · injection h with h1
    subst h1
    intro lbl hc
    exact Err.noConfusion hc
  · split at h
    · injection h with h1
      subst h1
      intro lbl hc
      exact Err.noConfusion hc
    · split at h
      · exact Except.noConfusion h
      · injection h with h1
        subst h1
        intro lbl hc
        exact Err.noConfusion hc

/-- The target of a reference edge is in bounds. -/
theorem refEdgeB_bounds {σ : Sheet} {p q : Nat × Nat} (h : refEdgeB σ p q = true) :
    q.1 < σ.rows ∧ q.2 < σ.cols := by
  simp only [refEdgeB, Bool.and_eq_true, List.any_eq_true] at h
  obtain ⟨⟨h1, h2⟩, t, ht, hrm, hm⟩ := h
  rcases hpr : parse_reference σ.rows σ.cols t with e | q'
  · rw [hpr] at hm
    exact absurd hm (by simp)
  · rw [hpr] at hm
    have : q' = q := by simpa using hm
    subst this
    exact parse_reference_ok_bounds hpr

/-- A reference cycle makes its coordinate list successor-closed. -/
theorem isRefCycle_succClosed {σ : Sheet} {cs : List (Nat × Nat)}
    (h : IsRefCycleB σ cs = true) : SuccClosed σ cs := by
  simp only [IsRefCycleB, Bool.and_eq_true, List.all_eq_true] at h
  obtain ⟨hne, hall⟩ := h
  have hlen : 0 < cs.length := by
    cases cs
    · simp at hne
    · simp
  intro p hp
  obtain ⟨i, hi, hpi⟩ := List.mem_iff_getElem.mp hp
  have hmod : (i + 1) % cs.length < cs.length := Nat.mod_lt _ hlen
  refine ⟨cs.getD ((i + 1) % cs.length) (0, 0), ?_, ?_⟩
  · rw [List.getD_eq_getElem _ _ hmod]
    exact List.getElem_mem _
  · have he := hall i (List.mem_range.mpr hi)
    rw [List.getD_eq_getElem _ _ hi, hpi] at he
    exact he

/-- A circular-reference failure names the label of a cell that is
`EVALUATING` in the resulting state: the error is raised exactly on
re-entering an `InProgress` cell, whose marker survives the
propagation. -/
theorem circular_error_busy : ∀ fuel : Nat,
    (∀ σ r c lbl σ', evaluate_cell fuel σ r c = (.error (.circular lbl), σ') →
      ∃ y z, lbl = String.mk (cell_name y z) ∧ σ'.state y z = EVALUATING) ∧
    (∀ σ fml lbl σ', evaluate_formula fuel σ fml = (.error (.circular lbl), σ') →
      ∃ y z, lbl = String.mk (cell_name y z) ∧ σ'.state y z = EVALUATING) ∧
    (∀ σ t lbl σ', evaluate_token fuel σ t = (.error (.circular lbl), σ') →
      ∃ y z, lbl = String.mk (cell_name y z) ∧ σ'.state y z = EVALUATING) := by
  intro fuel
  induction fuel with
  | zero =>
    refine ⟨?_, ?_, ?_⟩
    · intro σ r c lbl σ' h
      injection h with e1 e2
      injection e1 with e3
      exact Err.noConfusion e3
    · intro σ fml lbl σ' h
      injection h with e1 e2
      injection e1 with e3
      exact Err.noConfusion e3
    · intro σ t lbl σ' h
      injection h with e1 e2
      injection e1 with e3
      exact Err.noConfusion e3
  | succ fuel ih =>
    refine ⟨?_, ?_, ?_⟩
    · intro σ r c lbl σ' h
      simp only [evaluate_cell] at h
      split at h
      · injection h with e1 e2
        exact Except.noConfusion e1
      · rename_i h1
        split at h
        · rename_i h2
          injection h with e1 e2
          injection e1 with e3
          injection e3 with e4
          subst e2
          exact ⟨r, c, e4.symm, h2⟩
        · rename_i h2
          split at h
          · injection h with e1 e2
            exact Except.noConfusion e1
          · split at h
            · split at h
              · injection h with e1 e2
                exact Except.noConfusion e1
              · rename_i e0 σ2 heq
                injection h with e1 e2
                injection e1 with e3
                subst e3
                subst e2
                exact ih.2.1 _ _ _ _ heq
            · split at h
              · injection h with e1 e2
                exact Except.noConfusion e1
              · injection h with e1 e2
                injection e1 with e3
                exact Err.noConfusion e3
    · intro σ fml lbl σ' h
      simp only [evaluate_formula] at h
      split at h
      · exact ih.2.2 _ _ _ _ h
      · rename_i l op r
        split at h
        · rename_i lv σ1 heq1
          split at h
          · rename_i rv σ2 heq2
            split at h
            · injection h with e1 e2
              exact Except.noConfusion e1
            · split at h
              · injection h with e1 e2
                exact Except.noConfusion e1
              · injection h with e1 e2
                injection e1 with e3
                exact Err.noConfusion e3
          · rename_i e0 σ2 heq2
            injection h with e1 e2
            injection e1 with e3
            subst e3
            subst e2
            exact ih.2.2 _ _ _ _ heq2
        · rename_i e0 σ1 heq1
          injection h with e1 e2
          injection e1 with e3
          subst e3
          subst e2
          exact ih.2.2 _ _ _ _ heq1
      · injection h with e1 e2
        injection e1 with e3
        exact Err.noConfusion e3
    · intro σ t lbl σ' h
      simp only [evaluate_token] at h
      split at h
      · split at h
        · exact ih.1 _ _ _ _ _ h
        · rename_i e0 heqp
          injection h with e1 e2
          injection e1 with e3
          subst e3
          exact absurd rfl (parse_reference_no_circular heqp lbl)
      · split at h
        · injection h with e1 e2
          exact Except.noConfusion e1
        · injection h with e1 e2
          injection e1 with e3
          exact Err.noConfusion e3

/-- A failing sweep whose error is circular points at a cell left
`EVALUATING`. -/
theorem evalCells_circular : ∀ (l : List (Nat × Nat)) (fuel : Nat) (σ : Sheet) lbl σ',
    evalCells fuel σ l = (.error (.circular lbl), σ') →
    ∃ y z, lbl = String.mk (cell_name y z) ∧ σ'.state y z = EVALUATING := by
  intro l
  induction l with
  | nil =>
    intro fuel σ lbl σ' h
    injection h with e1 e2
    exact Except.noConfusion e1
  | cons p rest ih =>
    intro fuel σ lbl σ' h
    obtain ⟨r, c⟩ := p
    simp only [evalCells] at h
    split at h
    · split at h
      · exact ih _ _ _ _ h
      · rename_i e0 σ1 heq
        injection h with e1 e2
        injection e1 with e3
        subst e3
        subst e2
        exact (circular_error_busy fuel).1 _ _ _ _ _ heq
    · exact ih _ _ _ _ h

/-- On a clean grid, the evaluators can only fail with a circular
reference (or, in the embedding, exhausted fuel): every parse, token,
range and literal error is ruled out by cleanliness. -/
theorem clean_errors : ∀ fuel : Nat,
    (∀ σ r c e σ', CleanSheet σ → OobBlank σ →
      evaluate_cell fuel σ r c = (.error e, σ') →
      (∃ lbl, e = .circular lbl) ∨ e = .outOfFuel) ∧
    (∀ σ fml e σ', CleanSheet σ → OobBlank σ →
      cleanFormulaB σ.rows σ.cols fml = true →
      evaluate_formula fuel σ fml = (.error e, σ') →
      (∃ lbl, e = .circular lbl) ∨ e = .outOfFuel) ∧
    (∀ σ t e σ', CleanSheet σ → OobBlank σ →
      cleanTokenB σ.rows σ.cols t = true →
      evaluate_token fuel σ t = (.error e, σ') →
      (∃ lbl, e = .circular lbl) ∨ e = .outOfFuel) := by
  intro fuel
  induction fuel with
  | zero =>
    refine ⟨?_, ?_, ?_⟩
    · intro σ r c e σ' _ _ h
      injection h with e1 e2
      injection e1 with e3
      exact Or.inr e3.symm
    · intro σ fml e σ' _ _ _ h
      injection h with e1 e2
      injection e1 with e3
      exact Or.inr e3.symm
    · intro σ t e σ' _ _ _ h
      injection h with e1 e2
      injection e1 with e3
      exact Or.inr e3.symm
  | succ fuel ih =>
    obtain ⟨ihc, ihf, iht⟩ := ih
    refine ⟨?_, ?_, ?_⟩
    · intro σ r c e σ' hcs hoob h
      simp only [evaluate_cell] at h
      split at h
      · injection h with e1 e2
        exact Except.noConfusion e1
      · rename_i h1
        split at h
        · injection h with e1 e2
          injection e1 with e3
          exact Or.inl ⟨String.mk (cell_name r c), e3.symm⟩
        · rename_i h2
          split at h
          · injection h with e1 e2
            exact Except.noConfusion e1
          · rename_i hne
            have hin : r < σ.rows ∧ c < σ.cols := by
              by_contra hcontra
              have hblank : cellData σ r c = [] := (hoob r c).resolve_left hcontra
              apply hne
              rw [hblank]
              rfl
            have hcc := hcs r hin.1 c hin.2
            split at h
            · rename_i hhead
              have hcf : cleanFormulaB σ.rows σ.cols
                  ((pyStrip (cellData σ r c)).drop 1) = true := by
                simp only [cleanCellB] at hcc
                rw [Bool.or_eq_true] at hcc
                rcases hcc with hemp | hifc
                · exact absurd hemp hne
                · rwa [if_pos hhead] at hifc
              split at h
              · injection h with e1 e2
                exact Except.noConfusion e1
              · rename_i e0 σ2 heq
                injection h with e1 e2
                injection e1 with e3
                subst e3
                subst e2
                have hd : dimsEq σ (setState σ r c EVALUATING) := ⟨rfl, rfl, rfl⟩
                exact ihf _ _ _ _ (cleanSheet_dims hd hcs) (oobBlank_dims hd hoob) hcf heq
            · rename_i hhead
              split at h
              · injection h with e1 e2
                exact Except.noConfusion e1
              · rename_i hnone
                exfalso
                simp only [cleanCellB] at hcc
                rw [Bool.or_eq_true] at hcc
                rcases hcc with hemp | hifc
                · exact hne hemp
                · rw [if_neg hhead, hnone] at hifc
                  simp at hifc
    · intro σ fml e σ' hcs hoob hcf h
      simp only [evaluate_formula] at h
      rcases hs : splitTokens fml with _ | ⟨t0, _ | ⟨t1, _ | ⟨t2, ts⟩⟩⟩
      · rw [hs] at h
        simp only at h
        simp only [cleanFormulaB, hs] at hcf
        exact Bool.noConfusion hcf
      · rw [hs] at h
        simp only at h
        simp only [cleanFormulaB, hs] at hcf
        exact iht _ _ _ _ hcs hoob hcf h
      · rw [hs] at h
        simp only at h
        simp only [cleanFormulaB, hs] at hcf
        exact Bool.noConfusion hcf
      · rcases ts with _ | ⟨t3, ts2⟩
        · rw [hs] at h
          simp only at h
          simp only [cleanFormulaB, hs] at hcf
          rw [Bool.and_eq_true, Bool.and_eq_true] at hcf
          obtain ⟨⟨hop, hcl⟩, hcr⟩ := hcf
          split at h
          · rename_i lv σ1 heq1
            have hd1 : dimsEq σ σ1 := ((eval_effects fuel).2.2 _ _ _ _ heq1).1.1
            split at h
            · rename_i rv σ2 heq2
              split at h
              · injection h with e1 e2
                exact Except.noConfusion e1
              · split at h
                · injection h with e1 e2
                  exact Except.noConfusion e1
                · rename_i hni1 hni2
                  exfalso
                  rw [Bool.or_eq_true] at hop
                  rcases hop with hx | hx
                  · exact hni1 (by simpa using hx)
                  · exact hni2 (by simpa using hx)
            · rename_i e2' σ2 heq2
              injection h with e1 e2
              injection e1 with e3
              subst e3
              subst e2
              refine iht σ1 t2 _ _ (cleanSheet_dims hd1 hcs) (oobBlank_dims hd1 hoob)
                ?_ heq2
              rw [hd1.1, hd1.2.1]
              exact hcr
          · rename_i e1' σ1 heq1
            injection h with e1 e2
            injection e1 with e3
            subst e3
            subst e2
            exact iht σ t0 _ _ hcs hoob hcl heq1
        · rw [hs] at h
          simp only at h
          simp only [cleanFormulaB, hs] at hcf
          exact Bool.noConfusion hcf
    · intro σ t e σ' hcs hoob hct h
      simp only [evaluate_token] at h
      split at h
      · rename_i hrm
        simp only [cleanTokenB] at hct
        rw [if_pos hrm] at hct
        split at h
        · exact ihc _ _ _ _ _ hcs hoob h
        · rename_i e0 heqp
          rw [heqp] at hct
          simp [exOk] at hct
      · rename_i hrm
        simp only [cleanTokenB] at hct
        rw [if_neg hrm] at hct
        split at h
        · injection h with e1 e2
          exact Except.noConfusion e1
        · rename_i hnone
          rw [hnone] at hct
          simp at hct

/-- On a clean grid, a failing sweep can only fail with a circular
reference (or exhausted fuel). -/
theorem evalCells_clean : ∀ (l : List (Nat × Nat)) (fuel : Nat) (σ : Sheet) e σ',
    CleanSheet σ → OobBlank σ → evalCells fuel σ l = (.error e, σ') →
    (∃ lbl, e = .circular lbl) ∨ e = .outOfFuel := by
  intro l
  induction l with
  | nil =>
    intro fuel σ e σ' _ _ h
    injection h with e1 e2
    exact Except.noConfusion e1
  | cons p rest ih =>
    intro fuel σ e σ' hcs hoob h
    obtain ⟨r, c⟩ := p
    simp only [evalCells] at h
    split at h
    · split at h
      · rename_i v σ1 heq
        have hd : dimsEq σ σ1 := ((eval_effects fuel).1 _ _ _ _ _ heq).1.1
        exact ih _ _ _ _ (cleanSheet_dims hd hcs) (oobBlank_dims hd hoob) h
      · rename_i e0 σ1 heq
        injection h with e1 e2
        injection e1 with e3
        subst e3
        subst e2
        exact (clean_errors fuel).1 _ _ _ _ _ hcs hoob heq
    · exact ih _ _ _ _ hcs hoob h

/-- Marking a cell `EVALUATING` cannot make a cycle cell `EVALUATED`. -/
theorem noDoneOn_mark {σ : Sheet} {cs : List (Nat × Nat)} (h : NoDoneOn σ cs)
    (r c : Nat) : NoDoneOn (setState σ r c EVALUATING) cs := by
  intro p hp
  obtain ⟨p1, p2⟩ := p
  by_cases hyz : p1 = r ∧ p2 = c
  · show (setState σ r c EVALUATING).state p1 p2 ≠ EVALUATED
    simp only [setState]
    rw [if_pos hyz]
    simp [EVALUATING, EVALUATED]
  · show (setState σ r c EVALUATING).state p1 p2 ≠ EVALUATED
    simp only [setState]
    rw [if_neg hyz]
    exact h (p1, p2) hp

/-- Completing a cell that is not on the cycle cannot make a cycle cell
`EVALUATED`. -/
theorem noDoneOn_finish {σ2 : Sheet} {cs : List (Nat × Nat)} {r c : Nat}
    (hnot : (r, c) ∉ cs) (h : NoDoneOn σ2 cs) (v : Int) :
    NoDoneOn (setState (setValue σ2 r c v) r c EVALUATED) cs := by
  intro p hp
  obtain ⟨p1, p2⟩ := p
  by_cases hyz : p1 = r ∧ p2 = c
  · obtain ⟨rfl, rfl⟩ := hyz
    exact absurd hp hnot
  · show (setState (setValue σ2 r c v) r c EVALUATED).state p1 p2 ≠ EVALUATED
    simp only [setState, setValue]
    rw [if_neg hyz]
    exact h (p1, p2) hp

/-- On a grid whose reference edges close a coordinate list `cs` onto
itself, no member of `cs` can ever evaluate successfully, and no
successful evaluation whatsoever can mark a member of `cs` `EVALUATED`:
any attempt re-enters `cs` while it is `InProgress`. -/
theorem cycle_no_ok (cs : List (Nat × Nat)) : ∀ fuel : Nat,
    (∀ σ : Sheet, SuccClosed σ cs → NoDoneOn σ cs →
      (∀ p ∈ cs, ∀ v σ', evaluate_cell fuel σ p.1 p.2 ≠ (.ok v, σ')) ∧
      (∀ r c v σ', evaluate_cell fuel σ r c = (.ok v, σ') → NoDoneOn σ' cs)) ∧
    (∀ σ : Sheet, SuccClosed σ cs → NoDoneOn σ cs →
      (∀ fml, (∃ t ∈ splitTokens fml, refMatch t = true ∧
          ∃ q ∈ cs, parse_reference σ.rows σ.cols t = .ok q) →
        ∀ v σ', evaluate_formula fuel σ fml ≠ (.ok v, σ')) ∧
      (∀ fml v σ', evaluate_formula fuel σ fml = (.ok v, σ') → NoDoneOn σ' cs)) ∧
    (∀ σ : Sheet, SuccClosed σ cs → NoDoneOn σ cs →
      (∀ t, refMatch t = true →
        (∃ q ∈ cs, parse_reference σ.rows σ.cols t = .ok q) →
        ∀ v σ', evaluate_token fuel σ t ≠ (.ok v, σ')) ∧
      (∀ t v σ', evaluate_token fuel σ t = (.ok v, σ') → NoDoneOn σ' cs)) := by
  intro fuel
  induction fuel with
  | zero =>
    refine ⟨?_, ?_, ?_⟩
    · intro σ _ _
      refine ⟨?_, ?_⟩
      · intro p _ v σ' h
        injection h with e1 e2
        exact Except.noConfusion e1
      · intro r c v σ' h
        injection h with e1 e2
        exact Except.noConfusion e1
    · intro σ _ _
      refine ⟨?_, ?_⟩
      · intro fml _ v σ' h
        injection h with e1 e2
        exact Except.noConfusion e1
      · intro fml v σ' h
        injection h with e1 e2
        exact Except.noConfusion e1
    · intro σ _ _
      refine ⟨?_, ?_⟩
      · intro t _ _ v σ' h
        injection h with e1 e2
        exact Except.noConfusion e1
      · intro t v σ' h
        injection h with e1 e2
        exact Except.noConfusion e1
  | succ fuel ih =>
    obtain ⟨ihc, ihf, iht⟩ := ih
    refine ⟨?_, ?_, ?_⟩
    · -- evaluate_cell
      intro σ hsc hnd
      have cellA : ∀ p ∈ cs, ∀ v σ', evaluate_cell (fuel + 1) σ p.1 p.2 ≠ (.ok v, σ') := by
        rintro ⟨pr, pc⟩ hp v σ' h
        simp only [evaluate_cell] at h
        split at h
        · rename_i h1
          exact hnd (pr, pc) hp h1
        · split at h
          · injection h with e1 e2
            exact Except.noConfusion e1
          · rename_i h1 h2
            obtain ⟨q, hq, hedge⟩ := hsc (pr, pc) hp
            simp only [refEdgeB, Bool.and_eq_true, List.any_eq_true] at hedge
            obtain ⟨⟨hneB, hheadB⟩, t, htmem, hrm, hm⟩ := hedge
            have hnemp : ¬((pyStrip (cellData σ pr pc)).isEmpty = true) := by
              intro hx
              rw [hx] at hneB
              simp at hneB
            rw [if_neg hnemp, if_pos hheadB] at h
            split at h
            · rename_i w σ2 heqf
              have hd : dimsEq σ (setState σ pr pc EVALUATING) := ⟨rfl, rfl, rfl⟩
              have hsc1 := succClosed_dims hd hsc
              have hnd1 := noDoneOn_mark hnd pr pc
              refine (ihf _ hsc1 hnd1).1 _ ⟨t, htmem, hrm, q, hq, ?_⟩ w σ2 heqf
              rcases hpr : parse_reference σ.rows σ.cols t with e0 | q'
              · rw [hpr] at hm
                simp at hm
              · rw [hpr] at hm
                have hqq : q' = q := by simpa using hm
                subst hqq
                exact hpr
            · injection h with e1 e2
              exact Except.noConfusion e1
      refine ⟨cellA, ?_⟩
      intro r c v σ' h
      by_cases hin : (r, c) ∈ cs
      · exact absurd h (cellA (r, c) hin v σ')
      · simp only [evaluate_cell] at h
        split at h
        · injection h with e1 e2
          subst e2
          exact hnd
        · split at h
          · injection h with e1 e2
            exact Except.noConfusion e1
          · rename_i h1 h2
            split at h
            · injection h with e1 e2
              subst e2
              exact noDoneOn_finish hin (noDoneOn_mark hnd r c) 0
            · split at h
              · split at h
                · rename_i w σ2 heqf
                  injection h with e1 e2
                  subst e2
                  have hd : dimsEq σ (setState σ r c EVALUATING) := ⟨rfl, rfl, rfl⟩
                  have hnd2 := (ihf _ (succClosed_dims hd hsc)
                    (noDoneOn_mark hnd r c)).2 _ _ _ heqf
                  exact noDoneOn_finish hin hnd2 w
                · injection h with e1 e2
                  exact Except.noConfusion e1
              · split at h
                · rename_i w heqint
                  injection h with e1 e2
                  subst e2
                  exact noDoneOn_finish hin (noDoneOn_mark hnd r c) w
                · injection h with e1 e2
                  exact Except.noConfusion e1
    · -- evaluate_formula
      intro σ hsc hnd
      refine ⟨?_, ?_⟩
      · rintro fml ⟨t, htmem, hrm, q, hq, hpr⟩ v σ' h
        simp only [evaluate_formula] at h
        split at h
        · rename_i t0 hs
          rw [hs] at htmem
          have ht0 : t = t0 := by simpa using htmem
          subst ht0
          exact (iht σ hsc hnd).1 t hrm ⟨q, hq, hpr⟩ v σ' h
        · rename_i l op r hs
          rw [hs] at htmem
          split at h
          · rename_i lv σ1 heq1
            rcases List.mem_cons.mp htmem with rfl | htmem2
            · exact (iht σ hsc hnd).1 t hrm ⟨q, hq, hpr⟩ lv σ1 heq1
            · rcases List.mem_cons.mp htmem2 with rfl | htmem3
              · split at h
                · rename_i rv σ2 heq2
                  split at h
                  · rename_i hplus
                    subst hplus
                    exact absurd hrm (by decide)
                  · split at h
                    · rename_i hminus
                      subst hminus
                      exact absurd hrm (by decide)
                    · injection h with e1 e2
                      exact Except.noConfusion e1
                · injection h with e1 e2
                  exact Except.noConfusion e1
              · have htr : t = r := by simpa using htmem3
                subst htr
                split at h
                · rename_i rv σ2 heq2
                  have hd : dimsEq σ σ1 := ((eval_effects fuel).2.2 _ _ _ _ heq1).1.1
                  have hnd1 := (iht σ hsc hnd).2 _ _ _ heq1
                  refine (iht σ1 (succClosed_dims hd hsc) hnd1).1 t hrm
                    ⟨q, hq, ?_⟩ rv σ2 heq2
                  rw [hd.1, hd.2.1]
                  exact hpr
                · injection h with e1 e2
                  exact Except.noConfusion e1
          · injection h with e1 e2
            exact Except.noConfusion e1
        · injection h with e1 e2
          exact Except.noConfusion e1
      · intro fml v σ' h
        simp only [evaluate_formula] at h
        split at h
        · exact (iht σ hsc hnd).2 _ _ _ h
        · rename_i l op r hs
          split at h
          · rename_i lv σ1 heq1
            have hd : dimsEq σ σ1 := ((eval_effects fuel).2.2 _ _ _ _ heq1).1.1
            have hnd1 := (iht σ hsc hnd).2 _ _ _ heq1
            have hsc1 := succClosed_dims hd hsc
            split at h
            · rename_i rv σ2 heq2
              have hnd2 := (iht σ1 hsc1 hnd1).2 _ _ _ heq2
              split at h
              · injection h with e1 e2
                subst e2
                exact hnd2
              · split at h
                · injection h with e1 e2
                  subst e2
                  exact hnd2
                · injection h with e1 e2
                  exact Except.noConfusion e1
            · injection h with e1 e2
              exact Except.noConfusion e1
          · injection h with e1 e2
            exact Except.noConfusion e1
        · injection h with e1 e2
          exact Except.noConfusion e1
    · -- evaluate_token
      intro σ hsc hnd
      refine ⟨?_, ?_⟩
      · rintro t hrm ⟨q, hq, hpr⟩ v σ' h
        simp only [evaluate_token] at h
        split at h
        · split at h
          · rename_i rr cc heqp
            rw [hpr] at heqp
            injection heqp with heqp2
            exact (ihc σ hsc hnd).1 q hq v σ'
              (by rw [show q.1 = rr by rw [heqp2], show q.2 = cc by rw [heqp2]]; exact h)
          · rename_i e0 heqp
            rw [hpr] at heqp
            exact Except.noConfusion heqp
        · rename_i hrm2
          exact hrm2 hrm
      · intro t v σ' h
        simp only [evaluate_token] at h
        split at h
        · split at h
          · exact (ihc σ hsc hnd).2 _ _ _ _ h
          · injection h with e1 e2
            exact Except.noConfusion e1
        · split at h
          · injection h with e1 e2
            subst e2
            exact hnd
          · injection h with e1 e2
            exact Except.noConfusion e1

/-- A successful sweep cannot mark any cell of a successor-closed
coordinate list `EVALUATED`. -/
theorem evalCells_cycle_no_done (cs : List (Nat × Nat)) :
    ∀ (l : List (Nat × Nat)) (fuel : Nat) (σ : Sheet) u σ',
    SuccClosed σ cs → NoDoneOn σ cs → evalCells fuel σ l = (.ok u, σ') →
    NoDoneOn σ' cs := by
  intro l
  induction l with
  | nil =>
    intro fuel σ u σ' _ hnd h
    injection h with e1 e2
    subst e2
    exact hnd
  | cons p rest ih =>
    intro fuel σ u σ' hsc hnd h
    obtain ⟨r, c⟩ := p
    simp only [evalCells] at h
    split at h
    · split at h
      · rename_i v σ1 heq
        have hd : dimsEq σ σ1 := ((eval_effects fuel).1 _ _ _ _ _ heq).1.1
        have hnd1 := ((cycle_no_ok cs fuel).1 σ hsc hnd).2 _ _ _ _ heq
        exact ih fuel σ1 u σ' (succClosed_dims hd hsc) hnd1 h
      · injection h with e1 e2
        exact Except.noConfusion e1
    · exact ih fuel σ u σ' hsc hnd h

/-- C3 (amended): on a grid whose formula references form a cycle and
whose every cell is otherwise clean (no parse, token, range or literal
error anywhere), `evaluateAll` fails with `CircularReferenceError`, and
the error names the label of a cell whose marker is still `InProgress`
when the failure propagates — the cell that was re-entered.  (The
fuel-exhaustion guard is the embedding's stand-in for the stack bound; the
original claim, quantified over all grids with a cycle, is refuted by the
counterexample in which a different error fires first.) -/
theorem c3_cycle_detected (g : List (List (List Char))) (σ0 : Sheet)
    (cs : List (Nat × Nat)) (fuel : Nat)
    (hinit : init g = .ok σ0)
    (hcyc : IsRefCycleB σ0 cs = true)
    (hclean : CleanSheet σ0)
    (hfuel : (evaluate fuel σ0).1 ≠ .error Err.outOfFuel) :
    ∃ r c σ1, evaluate fuel σ0 = (.error (.circular (String.mk (cell_name r c))), σ1) ∧
      σ1.state r c = EVALUATING := by
  obtain ⟨hdata, hstate, hvalues, hrows, hrect⟩ := init_spec g σ0 hinit
  have hsc : SuccClosed σ0 cs := isRefCycle_succClosed hcyc
  have hnd : NoDoneOn σ0 cs := by
    intro p hp
    rw [hstate]
    simp [NOT_EVALUATED, EVALUATED]
  have hoob : OobBlank σ0 := init_oob g σ0 hinit
  have hne : cs ≠ [] := by
    intro hnil
    rw [hnil] at hcyc
    simp [IsRefCycleB] at hcyc
  cases hres : evalCells fuel σ0 (coordsList σ0.rows σ0.cols) with
  | mk res σx =>
    cases res with
    | ok u =>
      exfalso
      have hndx := evalCells_cycle_no_done cs _ fuel σ0 u σx hsc hnd hres
      obtain ⟨p0, hp0⟩ := List.exists_mem_of_ne_nil cs hne
      obtain ⟨q, hq, hedge⟩ := hsc p0 hp0
      obtain ⟨q1, q2⟩ := q
      have hb := refEdgeB_bounds hedge
      have hdone := (evalCells_ok _ _ _ _ _ hres).2 (q1, q2)
        (mem_coordsList.mpr ⟨hb.1, hb.2⟩)
      exact hndx (q1, q2) hq hdone
    | error e =>
      have heval : evaluate fuel σ0 = (.error e, σx) := by
        unfold evaluate
        rw [hres]
      rcases evalCells_clean _ _ _ _ _ hclean hoob hres with ⟨lbl, rfl⟩ | rfl
      · obtain ⟨y, z, hlbl, hbusy⟩ := evalCells_circular _ _ _ _ _ hres
        subst hlbl
        exact ⟨y, z, σx, heval, hbusy⟩
      · exfalso
        rw [heval] at hfuel
        exact hfuel rfl

/-- C3 witness: the two-cell cycle `A1="=B1"`, `B1="=A1"` fails with a
circular-reference error naming a cell left `InProgress`. -/
theorem c3_cycle_detected_witness :
    ∃ r c σ1, evaluate 9 sheetC = (.error (.circular (String.mk (cell_name r c))), σ1) ∧
      σ1.state r c = EVALUATING :=
  c3_cycle_detected (mkGrid [["=B1", "=A1"]]) sheetC [(0, 0), (0, 1)] 9 rfl (by decide)
    (by unfold CleanSheet; decide)
    (by
      intro hx
      rw [show (evaluate 9 sheetC).1 = Except.error (Err.circular "A1") from rfl] at hx
      injection hx with hx2
      exact Err.noConfusion hx2)

/-- C3 counterexample: the grid `[["x", "=B1"]]` contains a reference
cycle (B1 refers to itself), yet `evaluateAll` fails with the
invalid-cell-value error for A1, not with `CircularReferenceError`: an
earlier error in row-major order preempts the cycle. -/
theorem c3_counterexample :
    IsRefCycleB sheetE [(0, 1)] = true ∧
    runGrid [["x", "=B1"]] 9 = .ok (.error (.invalidCellValue 1 1 "x")) :=
  ⟨by decide, rfl⟩
